import Mathlib

/-!
# LDynArray: a shallow embedding of `src/src/ldyna.c`

The container stores fixed-width elements in one contiguous buffer.  The
embedding works at slot granularity: an element (the `esize` bytes of one slot)
is a value of an abstract type `α`, and the buffer is seen through the `array`
pointer as a function from a `size_t` slot index to the element read at
`array + idx * esize`.  That view is total on purpose: the source computes some
slot indices without a bounds check, and what such a read returns is whatever
the surrounding memory holds.  Index `SIZE_MAX` is the slot that precedes the
buffer, since `array + SIZE_MAX * esize` wraps to `array - esize`.

The libc function `qsort` is not part of the repository: the operations that
call it take it as a parameter, specified by `QsortSpec`.  Where two containers
have to be told apart by their buffers (`ldyna_copy`), a container is an
`ldyna_struct`, whose `array` field is an address into a `Memory`.

`size_t` is 64 bits wide (the test driver targets linux).  Additions and
subtractions that can wrap on values the code can hold are written with an
explicit `% SIZE_MOD`; subtractions guarded by the source (`len - 1` behind
`assert(list->len)`, `len - idx` behind `idx < len`) are plain.
-/

namespace LDynArray

/-! ## Machine integers -/

/-- Number of values of a `size_t`. -/
def SIZE_MOD : Nat := 2 ^ 64

/-- Largest `size_t`. -/
def SIZE_MAX : Nat := SIZE_MOD - 1

/-- Largest size in bytes of one allocated object; a buffer of one byte wide
elements or wider therefore never holds more than this many elements. -/
def PTRDIFF_MAX : Nat := 2 ^ 63 - 1

/-- Sum of two `size_t` values. -/
def size_add (a b : Nat) : Nat := (a + b) % SIZE_MOD

/-- Difference of two `size_t` values. -/
def size_sub (a b : Nat) : Nat := (a + SIZE_MOD - b) % SIZE_MOD

/-! ## Result codes and flags (`ldyna.h`) -/

def LDYNA_SUCCESS : Nat := 0
def LDYNA_NOT_FOUND : Nat := 1
def LDYNA_NULLPTR_WARN : Nat := 2
def LDYNA_INBULK_WARN : Nat := 3
def LDYNA_REALLOC_ERR : Nat := 4

def LDYNA_NONE : Nat := 0
def LDYNA_SORT : Nat := 1

/-- Constant `ldyna_block_size`: the growth increment, in elements. -/
def ldyna_block_size : Nat := 61

/-- Outcome of a call that may not return: `abort` is a failed `assert`,
`segfault` a store through (or a call of) a null pointer, `ok v` a normal
return. -/
inductive Result (β : Type) where
  | abort : Result β
  | segfault : Result β
  | ok (v : β) : Result β
  deriving DecidableEq, Repr

/-! ## The container -/

/-- Record `struct _ldyna`.  `allocs` is the capacity in elements and `len` the
number of occupied slots.  The comparator is a function on element values. -/
structure ldyna (α : Type) where
  allocs : Nat
  len : Nat
  esize : Nat
  compare : α → α → Int
  flags : Nat
  array : Nat → α

/-- The occupied elements, slots `0 .. len - 1`, in order. -/
def occupied {α : Type} (list : ldyna α) : List α :=
  (List.range list.len).map list.array

/-- Test `list->flags & LDYNA_SORT`. -/
def is_sorted_list {α : Type} (list : ldyna α) : Bool :=
  (list.flags &&& LDYNA_SORT) != 0

/-! ## Raw slot moves -/

/-- Call `memmove(array + dst * esize, array + src * esize, n * esize)`. -/
def memmove {α : Type} (array : Nat → α) (dst src n : Nat) : Nat → α :=
  fun i => if dst ≤ i ∧ i < dst + n then array (src + (i - dst)) else array i

/-- Call `memcpy(array + dst * esize, data, esize)`. -/
def memcpy {α : Type} (array : Nat → α) (dst : Nat) (data : α) : Nat → α :=
  fun i => if i = dst then data else array i

/-! ## The index resolver `__bsearch_index_insert` -/

/-- The `while (left < right)` loop of `__bsearch_index_insert`; returns the
final `(left, right)`.  The first argument bounds the number of iterations. -/
def bsearch_loop {α : Type} (compare : α → α → Int) (base : Nat → α) (key : α) :
    Nat → Nat → Nat → Nat × Nat
  | 0, left, right => (left, right)
  | fuel + 1, left, right =>
    if left < right then
      let mid := size_add left right / 2
      if compare key (base mid) < 0 then
        bsearch_loop compare base key fuel left mid
      else
        bsearch_loop compare base key fuel (mid + 1) right
    else (left, right)

/-- The `while (retidx < right && !equal)` loop ("stable insertion"); returns
the final `(retidx, equal)`.  The first argument bounds the number of
iterations. -/
def stable_loop {α : Type} (compare : α → α → Int) (base : Nat → α) (key : α)
    (right : Nat) : Nat → Nat → Int → Nat × Int
  | 0, retidx, equal => (retidx, equal)
  | fuel + 1, retidx, equal =>
    if retidx < right ∧ equal = 0 then
      stable_loop compare base key right fuel (size_add retidx 1)
        (compare key (base (size_add retidx 1)))
    else (retidx, equal)

/-- Function `__bsearch_index_insert(base, nelems, width, key, idx, isinsert,
compare)`.  The result is `none` when the function returns `false` (nothing is
stored through `idx`) and `some retidx` when it reaches `*idx = retidx;
return true`.  Both loops get `nelems` iterations of fuel. -/
def __bsearch_index_insert {α : Type} (base : Nat → α) (nelems : Nat) (key : α)
    (isinsert : Bool) (compare : α → α → Int) : Option Nat :=
  let right := (bsearch_loop compare base key nelems 0 nelems).2
  let retidx := size_sub right 1
  let equal := compare key (base retidx)
  if isinsert then
    let retidx := if equal > 0 then size_add retidx 1 else retidx
    some (stable_loop compare base key right nelems retidx equal).1
  else
    if equal ≠ 0 then none else some retidx

/-! ## Container operations -/

/-- Function `__list_remove(list, idx)`. -/
def __list_remove {α : Type} (list : ldyna α) (idx : Nat) : ldyna α :=
  let len := size_sub list.len 1
  if idx = len then
    { list with len := len }
  else
    { list with len := len, array := memmove list.array idx (idx + 1) (len - idx) }

/-- Function `ldyna_create(esize, compare, flags)`, both `malloc` calls
succeeding.  `heap` is the content of the memory around the fresh buffer as
seen through the new `array` pointer.  A failed `assert(esize)` aborts.  The
comparator is taken as supplied: the address-comparing default installed for a
null `compare` is not a function of element values. -/
def ldyna_create {α : Type} (esize : Nat) (compare : α → α → Int) (flags : Nat)
    (heap : Nat → α) : Result (ldyna α) :=
  if esize = 0 then .abort
  else .ok { allocs := ldyna_block_size, len := 0, esize := esize,
             compare := compare, flags := flags, array := heap }

/-- Function `ldyna_len(list)` on a valid `list` pointer. -/
def ldyna_len {α : Type} (list : ldyna α) : Nat := list.len

/-- Lines 174-176 of `ldyna_insert`: on a sorted list the resolver, in
insertion mode, overwrites the index asked for. -/
def resolve_index {α : Type} (list : ldyna α) (data : α) (idx : Nat) : Nat :=
  if is_sorted_list list then
    match __bsearch_index_insert list.array list.len data true list.compare with
    | some i => i
    | none => idx
  else idx

/-- Lines 178-186 of `ldyna_insert`: clamp the index, open the hole, store the
element and count it. -/
def insert_at {α : Type} (list : ldyna α) (data : α) (idx : Nat) : ldyna α :=
  let idx := if idx > list.len then list.len else idx
  let array :=
    if idx < list.len then memmove list.array (idx + 1) idx (list.len - idx)
    else list.array
  { list with array := memcpy array idx data, len := size_add list.len 1 }

/-- Lines 174-187 of `ldyna_insert`. -/
def insert_place {α : Type} (list : ldyna α) (data : α) (idx : Nat) : ldyna α :=
  insert_at list data (resolve_index list data idx)

/-- Function `ldyna_insert(list, data, idx, inbulk)` on valid `list`,
`list->array` and `data` pointers.  `realloc` is what the call of `realloc`
yields if it is reached: `none` for a null result, `some heap` for a block that
keeps the old slots and shows `heap` everywhere else.  Returns the result code
and the container after the call. -/
def ldyna_insert {α : Type} (list : ldyna α) (data : α) (idx : Nat) (inbulk : Bool)
    (realloc : Option (Nat → α)) : Nat × ldyna α :=
  if inbulk then (LDYNA_INBULK_WARN, list)
  else if list.allocs = list.len then
    match realloc with
    | none =>
      (LDYNA_REALLOC_ERR, { list with allocs := size_add list.allocs ldyna_block_size })
    | some heap =>
      (LDYNA_SUCCESS,
        insert_place
          { list with
            allocs := size_add list.allocs ldyna_block_size,
            array := fun i => if i < list.allocs then list.array i else heap i }
          data idx)
  else (LDYNA_SUCCESS, insert_place list data idx)

/-- Function `ldyna_append(list, data, inbulk)`. -/
def ldyna_append {α : Type} (list : ldyna α) (data : α) (inbulk : Bool)
    (realloc : Option (Nat → α)) : Nat × ldyna α :=
  ldyna_insert list data list.len inbulk realloc

/-- Function `ldyna_remove(list, idx, data)` on valid pointers.  Returns the
result code, the element copied to `data` and the container after the call. -/
def ldyna_remove {α : Type} (list : ldyna α) (idx : Nat) : Result (Nat × α × ldyna α) :=
  if list.len = 0 then .abort
  else
    let idx := if idx ≥ list.len then list.len - 1 else idx
    .ok (LDYNA_SUCCESS, list.array idx, __list_remove list idx)

/-- The `for` loop of `ldyna_index_of` on an unsorted list, entered at slot `i`
with `n` slots left to visit: the first slot whose element compares equal. -/
def index_of_scan {α : Type} (compare : α → α → Int) (array : Nat → α) (data : α) :
    Nat → Nat → Option Nat
  | 0, _ => none
  | n + 1, i => if compare data (array i) = 0 then some i
                else index_of_scan compare array data n (i + 1)

/-- Function `ldyna_index_of(list, data, idx, inbulk)` on valid `list`,
`list->array` and `data` pointers.  `idx` is the output pointer: `none` when it
is null, `some v` when it points to a `size_t` holding `v`.  Returns the result
code and what `idx` points to after the call. -/
def ldyna_index_of {α : Type} (list : ldyna α) (data : α) (idx : Option Nat) (inbulk : Bool) :
    Result (Nat × Option Nat) :=
  if inbulk then .ok (LDYNA_INBULK_WARN, idx)
  else if is_sorted_list list then
    match __bsearch_index_insert list.array list.len data false list.compare with
    | some retidx =>
      match idx with
      | none => .segfault
      | some _ => .ok (LDYNA_SUCCESS, some retidx)
    | none => .ok (LDYNA_NOT_FOUND, idx)
  else
    match index_of_scan list.compare list.array data list.len 0, idx with
    | some foundidx, some _ => .ok (LDYNA_SUCCESS, some foundidx)
    | _, _ => .ok (LDYNA_NOT_FOUND, idx)

/-- Function `ldyna_get(list, idx, data)` on valid pointers.  Returns the result
code and the element copied to `data`, if any. -/
def ldyna_get {α : Type} (list : ldyna α) (idx : Nat) : Result (Nat × Option α) :=
  if list.len = 0 then .abort
  else if idx ≥ list.len then .ok (LDYNA_NULLPTR_WARN, none)
  else
    let idx := if idx ≥ list.len then list.len - 1 else idx
    .ok (LDYNA_SUCCESS, some (list.array idx))

/-- Comparator `compare_int` of the tests, on integers small enough for the
difference not to overflow. -/
def compare_int (key1 key2 : Int) : Int := key1 - key2

/-- The append loop of the tests: the values are appended one after another
with bulk mode off; each comes with the heap its call receives from `realloc`
should it grow the buffer (allocation succeeds).  Returns the result codes and
the final container. -/
def append_all {α : Type} (list : ldyna α) : List (α × (Nat → α)) → List Nat × ldyna α
  | [] => ([], list)
  | (data, heap) :: rest =>
    let r := ldyna_append list data false (some heap)
    let rs := append_all r.2 rest
    (r.1 :: rs.1, rs.2)

/-- The removal loop of the tests: `n` calls `ldyna_remove(list, 0, &data)`;
returns the elements received, in order, and the final container. -/
def remove_front {α : Type} : Nat → ldyna α → Result (List α × ldyna α)
  | 0, list => .ok ([], list)
  | n + 1, list =>
    match ldyna_remove list 0 with
    | .ok (_, data, list1) =>
      match remove_front n list1 with
      | .ok (rest, list2) => .ok (data :: rest, list2)
      | .abort => .abort
      | .segfault => .segfault
    | .abort => .abort
    | .segfault => .segfault

/-! ## Specification vocabulary -/

/-- A three-way comparator that is a total preorder: swapping the arguments
swaps the sign, and "less than or equal" is transitive. -/
def IsTotalPreorder {α : Type} (compare : α → α → Int) : Prop :=
  (∀ a b, compare a b < 0 ↔ 0 < compare b a) ∧
  (∀ a b c, compare a b ≤ 0 → compare b c ≤ 0 → compare a c ≤ 0)

/-- The list is in non-descending order per the comparator. -/
def NonDescending {α : Type} (compare : α → α → Int) (l : List α) : Prop :=
  l.Pairwise (fun a b => compare a b ≤ 0)

instance {α : Type} (compare : α → α → Int) (l : List α) :
    Decidable (NonDescending compare l) := by
  unfold NonDescending; infer_instance

/-! ## Concrete containers of the scenarios -/

/-- Memory that reads as the integer 0 in every slot outside the occupied ones;
the four bytes in front of a block handed out by glibc `malloc` on a 64-bit
machine, the upper half of the size field of the chunk, read that way. -/
def zero_heap : Nat → Int := fun _ => 0

/-- The container `ldyna_create(sizeof(int), compare_int, flags)` returns on
`zero_heap`. -/
def created_int (flags : Nat) : ldyna Int :=
  { allocs := ldyna_block_size, len := 0, esize := 4, compare := compare_int,
    flags := flags, array := zero_heap }

/-- The values 3, 1, 2, 2 as input of the append loop. -/
def values_3122 : List (Int × (Nat → Int)) :=
  [(3, zero_heap), (1, zero_heap), (2, zero_heap), (2, zero_heap)]

/-- Sorted integer container after appending 3, 1, 2, 2. -/
def scenario_1223 : ldyna Int := (append_all (created_int LDYNA_SORT) values_3122).2

/-- Sorted integer container after appending 3, 1, 2, 2 and removing index 0. -/
def scenario_223 : ldyna Int := __list_remove scenario_1223 0

/-- Unsorted integer container after appending 10. -/
def scenario_10 : ldyna Int :=
  (ldyna_append (created_int LDYNA_NONE) 10 false none).2

/-! ## Sorting, bulk mode and copying -/

/-- The contract of the libc function `qsort`, which the repository calls but
does not contain: with a comparator that is a total preorder the result is a
non-descending rearrangement of the input. -/
def QsortSpec {α : Type} (qsort : (α → α → Int) → List α → List α) : Prop :=
  ∀ (compare : α → α → Int) (l : List α), IsTotalPreorder compare →
    (qsort compare l).Perm l ∧ NonDescending compare (qsort compare l)

/-- One sorting function that meets `QsortSpec`: insertion sort. -/
def qsort_model {α : Type} (compare : α → α → Int) (l : List α) : List α :=
  l.insertionSort (fun a b => compare a b ≤ 0)

/-- Function `ldyna_sort(list, compare)` on valid `list` and `list->array`
pointers; `compare` is `none` for a null function pointer.  `qsort` stands for
the libc function: its result on the occupied elements is written back to the
slots `0 .. len - 1`.  With a null comparator `qsort` calls through a null
pointer at its first comparison, which it makes as soon as there are two
elements.  Returns the result code and the container after the call. -/
def ldyna_sort {α : Type} (qsort : (α → α → Int) → List α → List α) (list : ldyna α)
    (compare : Option (α → α → Int)) : Result (Nat × ldyna α) :=
  let list1 : ldyna α :=
    if is_sorted_list list then
      match compare with
      | none => list
      | some c => { list with compare := c }
    else list
  let compare1 : Option (α → α → Int) :=
    if is_sorted_list list then
      match compare with
      | none => some list.compare
      | some c => some c
    else compare
  match compare1 with
  | none => if list1.len < 2 then .ok (LDYNA_SUCCESS, list1) else .segfault
  | some c =>
    .ok (LDYNA_SUCCESS,
      { list1 with array := fun i => (qsort c (occupied list1)).getD i (list1.array i) })

/-- Function `ldyna_start_bulk_add(list, inbulk)` on a valid `list` pointer.
Returns the result code and the flag held by `inbulk` after the call. -/
def ldyna_start_bulk_add {α : Type} (_list : ldyna α) (_inbulk : Bool) : Nat × Bool :=
  (LDYNA_SUCCESS, true)

/-- Function `ldyna_end_bulk_add(list, inbulk)` on a valid `list` pointer.
Returns the outcome of `ldyna_sort(list, NULL)` and the flag held by `inbulk`
after the call. -/
def ldyna_end_bulk_add {α : Type} (qsort : (α → α → Int) → List α → List α) (list : ldyna α)
    (_inbulk : Bool) : Result (Nat × ldyna α) × Bool :=
  (ldyna_sort qsort list none, false)

/-- A container as `struct _ldyna` holds it in memory: the field `array` is the
address of the buffer. -/
structure ldyna_struct (α : Type) where
  allocs : Nat
  len : Nat
  esize : Nat
  compare : α → α → Int
  flags : Nat
  array : Nat

/-- The memory: for every buffer address, the slots seen through a pointer to
it. -/
def Memory (α : Type) : Type := Nat → Nat → α

/-- The container a structure denotes in a memory. -/
def deref {α : Type} (mem : Memory α) (list : ldyna_struct α) : ldyna α :=
  { allocs := list.allocs, len := list.len, esize := list.esize, compare := list.compare,
    flags := list.flags, array := mem list.array }

/-- Function `ldyna_copy(list, inbulk)` on valid `list` and `list->array`
pointers.  `malloc` is the address of the new buffer when both calls of `malloc`
succeed and `none` when one of them returns null.  `*newarray = *list` copies
every field, the `array` field is then replaced by the new address and `memcpy`
fills the first `len` slots of the new buffer.  Returns the memory after the
call and the new structure, `none` for a null result. -/
def ldyna_copy {α : Type} (mem : Memory α) (list : ldyna_struct α) (inbulk : Bool)
    (malloc : Option Nat) : Memory α × Option (ldyna_struct α) :=
  if inbulk then (mem, none)
  else
    match malloc with
    | none => (mem, none)
    | some p =>
      (fun a => if a = p then (fun i => if i < list.len then mem list.array i else mem p i)
                else mem a,
       some { list with array := p })

/-- An operation of the library performed through a structure.  Every function
of `ldyna.c` reads and writes element memory through `list->array` only; `op`
is what the call does to the container, and `dest` is the address of the buffer
afterwards (`list.array`, or the block `realloc` moved it to). -/
def perform {α : Type} (mem : Memory α) (list : ldyna_struct α) (op : ldyna α → ldyna α)
    (dest : Nat) : Memory α × ldyna_struct α :=
  (fun a => if a = dest then (op (deref mem list)).array else mem a,
   { allocs := (op (deref mem list)).allocs, len := (op (deref mem list)).len,
     esize := (op (deref mem list)).esize, compare := (op (deref mem list)).compare,
     flags := (op (deref mem list)).flags, array := dest })

/-! ## Sequences of operations -/

/-- One call of the public interface that changes or reads a container. -/
inductive Op (α : Type) where
  | insert (data : α) (idx : Nat) (inbulk : Bool) (realloc : Option (Nat → α)) : Op α
  | append (data : α) (inbulk : Bool) (realloc : Option (Nat → α)) : Op α
  | remove (idx : Nat) : Op α
  | get (idx : Nat) : Op α
  | sort (compare : Option (α → α → Int)) : Op α

/-- The container after one call; a call that does not return ends the run. -/
def step {α : Type} (qsort : (α → α → Int) → List α → List α) (list : ldyna α) :
    Op α → Result (ldyna α)
  | .insert data idx inbulk realloc => .ok (ldyna_insert list data idx inbulk realloc).2
  | .append data inbulk realloc => .ok (ldyna_append list data inbulk realloc).2
  | .remove idx =>
    match ldyna_remove list idx with
    | .ok (_, _, list1) => .ok list1
    | .abort => .abort
    | .segfault => .segfault
  | .get idx =>
    match ldyna_get list idx with
    | .ok _ => .ok list
    | .abort => .abort
    | .segfault => .segfault
  | .sort compare =>
    match ldyna_sort qsort list compare with
    | .ok (_, list1) => .ok list1
    | .abort => .abort
    | .segfault => .segfault

/-- The container after a sequence of calls. -/
def run_ops {α : Type} (qsort : (α → α → Int) → List α → List α) :
    ldyna α → List (Op α) → Result (ldyna α)
  | list, [] => .ok list
  | list, op :: rest =>
    match step qsort list op with
    | .ok list1 => run_ops qsort list1 rest
    | .abort => .abort
    | .segfault => .segfault

/-- The capacity invariant: the length does not exceed the capacity, which is a
positive multiple of the growth increment. -/
def CapacityInv {α : Type} (list : ldyna α) : Prop :=
  list.len ≤ list.allocs ∧ 0 < list.allocs ∧ ldyna_block_size ∣ list.allocs

/-! ## The slots the resolver reads -/

/-- The slot indices at which the `while (left < right)` loop of
`__bsearch_index_insert` evaluates the comparator, in order. -/
def bsearch_loop_reads {α : Type} (compare : α → α → Int) (base : Nat → α) (key : α) :
    Nat → Nat → Nat → List Nat
  | 0, _, _ => []
  | fuel + 1, left, right =>
    if left < right then
      let mid := size_add left right / 2
      mid ::
        (if compare key (base mid) < 0 then
          bsearch_loop_reads compare base key fuel left mid
        else
          bsearch_loop_reads compare base key fuel (mid + 1) right)
    else []

/-- The slot indices at which the stable-insertion loop evaluates the
comparator, in order. -/
def stable_loop_reads {α : Type} (compare : α → α → Int) (base : Nat → α) (key : α)
    (right : Nat) : Nat → Nat → Int → List Nat
  | 0, _, _ => []
  | fuel + 1, retidx, equal =>
    if retidx < right ∧ equal = 0 then
      size_add retidx 1 ::
        stable_loop_reads compare base key right fuel (size_add retidx 1)
          (compare key (base (size_add retidx 1)))
    else []

/-- Every slot index at which `__bsearch_index_insert` evaluates the comparator,
in order: the probes of the search, the candidate `right - 1` and the probes of
the stable-insertion loop. -/
def bsearch_index_insert_reads {α : Type} (base : Nat → α) (nelems : Nat) (key : α)
    (isinsert : Bool) (compare : α → α → Int) : List Nat :=
  let right := (bsearch_loop compare base key nelems 0 nelems).2
  let retidx := size_sub right 1
  let equal := compare key (base retidx)
  bsearch_loop_reads compare base key nelems 0 nelems ++
    retidx ::
      (if isinsert then
        stable_loop_reads compare base key right nelems
          (if equal > 0 then size_add retidx 1 else retidx) equal
      else [])

/-! ## Further containers of the scenarios -/

/-- Memory that reads as the integer -5 in every slot. -/
def minus_heap : Nat → Int := fun _ => -5

/-- Unsorted integer container after appending 2 and 1. -/
def scenario_21 : ldyna Int :=
  (append_all (created_int LDYNA_NONE) [(2, zero_heap), (1, zero_heap)]).2

/-- Sorted integer container after appending 1, 2, 3. -/
def scenario_123 : ldyna Int :=
  (append_all (created_int LDYNA_SORT) [(1, zero_heap), (2, zero_heap), (3, zero_heap)]).2

/-- Unsorted integer container filled to its capacity by 61 appends of 7. -/
def scenario_full : ldyna Int :=
  (append_all (created_int LDYNA_NONE) (List.replicate 61 (7, zero_heap))).2

/-- The container after one call, or the container as it was when the call does
not return. -/
def effect {α : Type} (qsort : (α → α → Int) → List α → List α) (op : Op α)
    (list : ldyna α) : ldyna α :=
  match step qsort list op with
  | .ok list1 => list1
  | .abort => list
  | .segfault => list

/-- A memory that holds the buffer of `scenario_21` at address 0 and zeros at
every other address. -/
def memory_21 : Memory Int := fun a => if a = 0 then scenario_21.array else zero_heap

/-- The structure of `scenario_21`, its buffer at address 0. -/
def struct_21 : ldyna_struct Int :=
  { allocs := scenario_21.allocs, len := scenario_21.len, esize := scenario_21.esize,
    compare := scenario_21.compare, flags := scenario_21.flags, array := 0 }

/-- A sequence of calls: append 5, insert 3 at index 0, get index 0, sort with
`compare_int`, remove index 0. -/
def scenario_calls : List (Op Int) :=
  [.append 5 false none, .insert 3 0 false none, .get 0, .sort (some compare_int), .remove 0]

/-- The container `scenario_calls` leaves when run on a fresh unsorted integer
container. -/
def scenario_calls_last : ldyna Int :=
  scenario_calls.foldl (fun list op => effect qsort_model op list) (created_int LDYNA_NONE)

/-! ## The slots the buffer really has -/

/-- The number of element slots the buffer has after
`ldyna_insert(list, data, idx, inbulk)`, `slots` being the number it has before
the call.  The buffer changes size only in `realloc(list->array, allocs * esize)`
(line 166), called with the raised `allocs` when the container is found full
with bulk mode off; when that call returns null the buffer is the old one. -/
def slots_after_insert {α : Type} (list : ldyna α) (slots : Nat) (inbulk : Bool)
    (realloc : Option (Nat → α)) : Nat :=
  if inbulk then slots
  else if list.allocs = list.len then
    match realloc with
    | none => slots
    | some _ => size_add list.allocs ldyna_block_size
  else slots

/-- The number of element slots the buffer has after the append loop
`append_all`, `slots` being the number it has before. -/
def slots_after_append_all {α : Type} (list : ldyna α) (slots : Nat) :
    List (α × (Nat → α)) → Nat
  | [] => slots
  | (data, heap) :: rest =>
    slots_after_append_all (ldyna_append list data false (some heap)).2
      (slots_after_insert list slots false (some heap)) rest

/-- The comparator `compare_int` as a machine with 32-bit `int` evaluates it:
the difference wraps into the range of `int`.  `compare_int` above is this
function on keys whose difference fits. -/
def compare_int_wrapped (key1 key2 : Int) : Int :=
  (key1 - key2 + 2 ^ 31) % 2 ^ 32 - 2 ^ 31

/-! ## Machine arithmetic without wrap-around -/

theorem size_add_eq {a b : Nat} (h : a + b < SIZE_MOD) : size_add a b = a + b := by
  unfold size_add; exact Nat.mod_eq_of_lt h

theorem size_sub_one_eq {a : Nat} (h1 : 1 ≤ a) (h2 : a ≤ SIZE_MAX) : size_sub a 1 = a - 1 := by
  unfold size_sub
  unfold SIZE_MAX at h2
  have h3 : a + SIZE_MOD - 1 = (a - 1) + SIZE_MOD := by omega
  rw [h3, Nat.add_mod_right]
  apply Nat.mod_eq_of_lt
  have : 0 < SIZE_MOD := by unfold SIZE_MOD; positivity
  omega

theorem ptrdiff_lt_size : 2 * PTRDIFF_MAX + 1 < SIZE_MOD := by
  unfold PTRDIFF_MAX SIZE_MOD; norm_num

theorem ptrdiff_le_size_max : PTRDIFF_MAX ≤ SIZE_MAX := by
  unfold PTRDIFF_MAX SIZE_MAX SIZE_MOD; norm_num

/-! ## Comparator facts -/

theorem IsTotalPreorder.nonneg_iff {α : Type} {compare : α → α → Int}
    (h : IsTotalPreorder compare) (a b : α) : 0 ≤ compare a b ↔ compare b a ≤ 0 := by
  have h1 := h.1 a b
  have h2 := h.1 b a
  constructor <;> intro h3 <;> by_contra h4 <;> omega

theorem IsTotalPreorder.eq_zero_iff {α : Type} {compare : α → α → Int}
    (h : IsTotalPreorder compare) (a b : α) : compare a b = 0 ↔ compare b a = 0 := by
  have h1 := h.1 a b
  have h2 := h.1 b a
  constructor <;> intro h3 <;> by_contra h4 <;> omega

theorem compare_int_total_preorder : IsTotalPreorder compare_int := by
  unfold IsTotalPreorder compare_int
  constructor
  · intro a b; omega
  · intro a b c h1 h2; omega

/-! ## The upper-bound search -/

/-- With fuel for every iteration and no wrap in `left + right`, the search
loop ends with `left = right` inside the initial window; the slot at the final
`right` made the comparison negative unless `right` never moved, and the slot
before the final `left` made it non-negative unless `left` never moved. -/
theorem bsearch_loop_spec {α : Type} (compare : α → α → Int) (base : Nat → α) (key : α) :
    ∀ (fuel left right : Nat), left ≤ right → right ≤ PTRDIFF_MAX → right - left ≤ fuel →
      (bsearch_loop compare base key fuel left right).1 =
        (bsearch_loop compare base key fuel left right).2 ∧
      left ≤ (bsearch_loop compare base key fuel left right).2 ∧
      (bsearch_loop compare base key fuel left right).2 ≤ right ∧
      ((bsearch_loop compare base key fuel left right).2 < right →
        compare key (base (bsearch_loop compare base key fuel left right).2) < 0) ∧
      (left < (bsearch_loop compare base key fuel left right).2 →
        0 ≤ compare key (base ((bsearch_loop compare base key fuel left right).2 - 1))) := by
  intro fuel
  induction fuel with
  | zero =>
    intro left right hle _ hfuel
    have : left = right := by omega
    subst this
    simp [bsearch_loop]
  | succ fuel ih =>
    intro left right hle hmax hfuel
    unfold bsearch_loop
    by_cases hlt : left < right
    · have hsum : size_add left right = left + right := by
        apply size_add_eq
        have := ptrdiff_lt_size
        omega
      simp only [hlt, if_true, hsum]
      by_cases hc : compare key (base ((left + right) / 2)) < 0
      · simp only [hc, if_true]
        obtain ⟨h1, h2, h3, h4, h5⟩ :=
          ih left ((left + right) / 2) (by omega) (by omega) (by omega)
        refine ⟨h1, h2, by omega, ?_, h5⟩
        intro _
        by_cases hm : (bsearch_loop compare base key fuel left ((left + right) / 2)).2
            < (left + right) / 2
        · exact h4 hm
        · have : (bsearch_loop compare base key fuel left ((left + right) / 2)).2
              = (left + right) / 2 := by omega
          rw [this]; exact hc
      · simp only [hc, if_false]
        obtain ⟨h1, h2, h3, h4, h5⟩ :=
          ih ((left + right) / 2 + 1) right (by omega) hmax (by omega)
        refine ⟨h1, by omega, h3, h4, ?_⟩
        intro _
        by_cases hm : (left + right) / 2 + 1
            < (bsearch_loop compare base key fuel ((left + right) / 2 + 1) right).2
        · exact h5 hm
        · have : (bsearch_loop compare base key fuel ((left + right) / 2 + 1) right).2
              = (left + right) / 2 + 1 := by omega
          rw [this]
          simp only [Nat.add_sub_cancel]
          omega
    · have : left = right := by omega
      subst this
      simp

/-- On a non-descending buffer the search ends at the upper bound of the key:
the elements before it are less than or equal to the key and the elements from
it on are greater. -/
theorem upper_bound_spec {α : Type} (compare : α → α → Int) (base : Nat → α) (key : α)
    (n : Nat) (hpre : IsTotalPreorder compare) (hn : n ≤ PTRDIFF_MAX)
    (hs : ∀ i j, i < j → j < n → compare (base i) (base j) ≤ 0) :
    (bsearch_loop compare base key n 0 n).2 ≤ n ∧
    (∀ i, i < (bsearch_loop compare base key n 0 n).2 → 0 ≤ compare key (base i)) ∧
    (∀ i, (bsearch_loop compare base key n 0 n).2 ≤ i → i < n →
      compare key (base i) < 0) := by
  obtain ⟨_, _, h3, h4, h5⟩ :=
    bsearch_loop_spec compare base key n 0 n (Nat.zero_le _) hn (by omega)
  refine ⟨h3, ?_, ?_⟩
  · intro i hi
    have hlast := h5 (by omega)
    by_cases hil : i = (bsearch_loop compare base key n 0 n).2 - 1
    · rw [hil]; exact hlast
    · have h6 := hs i ((bsearch_loop compare base key n 0 n).2 - 1) (by omega) (by omega)
      have h7 := (hpre.nonneg_iff _ _).1 hlast
      exact (hpre.nonneg_iff _ _).2 (hpre.2 _ _ _ h6 h7)
  · intro i hi hin
    have hfirst := h4 (by omega)
    by_cases hir : i = (bsearch_loop compare base key n 0 n).2
    · rw [hir]; exact hfirst
    · by_contra hneg
      have h6 := hs (bsearch_loop compare base key n 0 n).2 i (by omega) hin
      have h7 := (hpre.nonneg_iff key (base i)).1 (by omega)
      have h8 := (hpre.nonneg_iff _ _).2 (hpre.2 _ _ _ h6 h7)
      omega

/-! ## The resolver when a candidate exists -/

theorem stable_loop_exit {α : Type} (compare : α → α → Int) (base : Nat → α) (key : α)
    (right fuel retidx : Nat) (equal : Int) (h : ¬ (retidx < right ∧ equal = 0)) :
    stable_loop compare base key right fuel retidx equal = (retidx, equal) := by
  cases fuel with
  | zero => rfl
  | succ fuel => simp only [stable_loop, h, if_false]

/-- Insertion mode, when the search ends at `right ≥ 1`: the candidate
`right - 1` compares non-negative, so the function stores `right`. -/
theorem bsearch_insert_of_pos {α : Type} (compare : α → α → Int) (base : Nat → α) (key : α)
    (n : Nat) (hn : n ≤ PTRDIFF_MAX) (hr : 1 ≤ (bsearch_loop compare base key n 0 n).2) :
    __bsearch_index_insert base n key true compare
      = some (bsearch_loop compare base key n 0 n).2 := by
  obtain ⟨_, _, h3, _, h5⟩ :=
    bsearch_loop_spec compare base key n 0 n (Nat.zero_le _) hn (by omega)
  have hlast := h5 (by omega)
  have hmax := ptrdiff_le_size_max
  have hlt := ptrdiff_lt_size
  have hsub : size_sub (bsearch_loop compare base key n 0 n).2 1
      = (bsearch_loop compare base key n 0 n).2 - 1 := size_sub_one_eq hr (by omega)
  have hadd : size_add ((bsearch_loop compare base key n 0 n).2 - 1) 1
      = (bsearch_loop compare base key n 0 n).2 := by
    rw [size_add_eq (by omega)]; omega
  unfold __bsearch_index_insert
  simp only [hsub, if_true]
  by_cases hpos : compare key (base ((bsearch_loop compare base key n 0 n).2 - 1)) > 0
  · simp only [hpos, if_true, hadd]
    rw [stable_loop_exit _ _ _ _ _ _ _ (by omega)]
  · have hzero : compare key (base ((bsearch_loop compare base key n 0 n).2 - 1)) = 0 := by
      omega
    have hnot : ¬ ((0 : Int) > 0) := by omega
    simp only [hzero, hnot, if_false]
    obtain ⟨m, hm⟩ : ∃ m, n = m + 1 := ⟨n - 1, by omega⟩
    have hstep : stable_loop compare base key (bsearch_loop compare base key n 0 n).2 n
        ((bsearch_loop compare base key n 0 n).2 - 1) 0
        = stable_loop compare base key (bsearch_loop compare base key n 0 n).2 m
            (bsearch_loop compare base key n 0 n).2
            (compare key (base (bsearch_loop compare base key n 0 n).2)) := by
      have hc : (bsearch_loop compare base key n 0 n).2 - 1
          < (bsearch_loop compare base key n 0 n).2 ∧ (0 : Int) = 0 := ⟨by omega, rfl⟩
      conv_lhs => rw [hm, stable_loop]
      rw [← hm]
      simp only [hc, and_self, if_true, hadd]
    rw [hstep, stable_loop_exit _ _ _ _ _ _ _ (by omega)]

/-- Exact-match mode, when the search ends at `right ≥ 1`: the answer is the
candidate `right - 1` if it compares equal, and not-found otherwise. -/
theorem bsearch_exact_of_pos {α : Type} (compare : α → α → Int) (base : Nat → α) (key : α)
    (n : Nat) (hn : n ≤ PTRDIFF_MAX) (hr : 1 ≤ (bsearch_loop compare base key n 0 n).2) :
    __bsearch_index_insert base n key false compare
      = if compare key (base ((bsearch_loop compare base key n 0 n).2 - 1)) ≠ 0 then none
        else some ((bsearch_loop compare base key n 0 n).2 - 1) := by
  obtain ⟨_, _, h3, _, _⟩ :=
    bsearch_loop_spec compare base key n 0 n (Nat.zero_le _) hn (by omega)
  have hmax := ptrdiff_le_size_max
  have hsub : size_sub (bsearch_loop compare base key n 0 n).2 1
      = (bsearch_loop compare base key n 0 n).2 - 1 := size_sub_one_eq hr (by omega)
  unfold __bsearch_index_insert
  simp [hsub]

/-! ## Slot moves seen on the list of occupied elements -/

theorem range_map_getElem? {α : Type} (f : Nat → α) (n i : Nat) :
    ((List.range n).map f)[i]? = if i < n then some (f i) else none := by
  by_cases h : i < n
  · simp [h, List.getElem?_range]
  · simp [h]
    omega

theorem place_slots {α : Type} (array : Nat → α) (n k : Nat) (data : α) (hk : k ≤ n) :
    (List.range (n + 1)).map
        (memcpy (if k < n then memmove array (k + 1) k (n - k) else array) k data)
      = ((List.range n).map array).take k ++ data :: ((List.range n).map array).drop k := by
  apply List.ext_getElem?
  intro i
  rw [range_map_getElem?, List.getElem?_append, List.getElem?_take, range_map_getElem?]
  simp only [List.length_take, List.length_map, List.length_range, Nat.min_eq_left hk]
  rcases Nat.lt_trichotomy i k with h | h | h
  · have h1 : i < n + 1 := by omega
    have h2 : i < n := by omega
    have h3 : i ≠ k := by omega
    have h4 : ¬ (k + 1 ≤ i ∧ i < k + 1 + (n - k)) := by omega
    simp only [h, h1, h2, if_true, memcpy, h3, if_false]
    split <;> simp [memmove, h4]
  · subst h
    have h1 : i < n + 1 := by omega
    simp [h1, memcpy]
  · have h3 : i ≠ k := by omega
    have h5 : ¬ (i < k) := by omega
    obtain ⟨j, rfl⟩ : ∃ j, i = k + 1 + j := ⟨i - (k + 1), by omega⟩
    have h6 : k + 1 + j - k = j + 1 := by omega
    simp only [h5, if_false, h6, List.getElem?_cons_succ, List.getElem?_drop, range_map_getElem?,
      memcpy, h3]
    by_cases h7 : k + 1 + j < n + 1
    · have h8 : k + j < n := by omega
      have h9 : k < n := by omega
      have h10 : k + 1 ≤ k + 1 + j ∧ k + 1 + j < k + 1 + (n - k) := by omega
      have h11 : k + (k + 1 + j - (k + 1)) = k + j := by omega
      simp [h7, h8, h9, memmove, h10, h11]
    · have h8 : ¬ (k + j < n) := by omega
      simp [h7, h8]

theorem remove_slots {α : Type} (array : Nat → α) (n k : Nat) (hk : k < n) :
    (List.range (n - 1)).map
        (if k = n - 1 then array else memmove array k (k + 1) (n - 1 - k))
      = ((List.range n).map array).take k ++ ((List.range n).map array).drop (k + 1) := by
  apply List.ext_getElem?
  intro i
  rw [range_map_getElem?, List.getElem?_append, List.getElem?_take, range_map_getElem?,
    List.getElem?_drop, range_map_getElem?]
  simp only [List.length_take, List.length_map, List.length_range, Nat.min_eq_left (Nat.le_of_lt hk)]
  by_cases h : i < k
  · have h1 : i < n - 1 := by omega
    have h2 : i < n := by omega
    have h4 : ¬ (k ≤ i ∧ i < k + (n - 1 - k)) := by omega
    simp only [h, h1, h2, if_true]
    split <;> simp [memmove, h4]
  · obtain ⟨j, rfl⟩ : ∃ j, i = k + j := ⟨i - k, by omega⟩
    have h6 : k + 1 + (k + j - k) = k + j + 1 := by omega
    simp only [h, if_false, h6]
    by_cases h7 : k + j < n - 1
    · have h8 : k + j + 1 < n := by omega
      have h9 : k ≠ n - 1 := by omega
      have h10 : k ≤ k + j ∧ k + j < k + (n - 1 - k) := by omega
      have h11 : k + 1 + (k + j - k) = k + j + 1 := by omega
      have h12 : k + 1 + j = k + j + 1 := by omega
      simp [h7, h8, h9, memmove, h10, h11, h12]
    · have h8 : ¬ (k + j + 1 < n) := by omega
      simp [h7, h8]

/-! ## Container operations on the list of occupied elements -/

theorem occupied_length {α : Type} (list : ldyna α) : (occupied list).length = list.len := by
  simp [occupied]

theorem occupied_getElem? {α : Type} (list : ldyna α) (i : Nat) :
    (occupied list)[i]? = if i < list.len then some (list.array i) else none :=
  range_map_getElem? _ _ _

theorem nonDescending_index {α : Type} {list : ldyna α}
    (h : NonDescending list.compare (occupied list)) :
    ∀ i j, i < j → j < list.len → list.compare (list.array i) (list.array j) ≤ 0 := by
  intro i j hij hj
  have h1 := List.pairwise_iff_getElem.1 h i j
    (by rw [occupied_length]; omega) (by rw [occupied_length]; omega) hij
  simpa [occupied] using h1

theorem insert_at_spec {α : Type} (list : ldyna α) (data : α) (idx : Nat)
    (hlen : list.len ≤ PTRDIFF_MAX) :
    occupied (insert_at list data idx)
      = (occupied list).take (min idx list.len) ++ data :: (occupied list).drop (min idx list.len) ∧
    (insert_at list data idx).len = list.len + 1 ∧
    (insert_at list data idx).compare = list.compare ∧
    (insert_at list data idx).flags = list.flags ∧
    (insert_at list data idx).allocs = list.allocs ∧
    (insert_at list data idx).esize = list.esize := by
  have hlt := ptrdiff_lt_size
  have hadd : size_add list.len 1 = list.len + 1 := size_add_eq (by omega)
  have hk : (if idx > list.len then list.len else idx) = min idx list.len := by
    split <;> omega
  refine ⟨?_, ?_, rfl, rfl, rfl, rfl⟩
  · unfold insert_at occupied
    simp only [hadd, hk]
    exact place_slots list.array list.len (min idx list.len) data (Nat.min_le_right _ _)
  · unfold insert_at
    simp only [hadd]

theorem list_remove_spec {α : Type} (list : ldyna α) (k : Nat) (hk : k < list.len)
    (hlen : list.len ≤ SIZE_MAX) :
    occupied (__list_remove list k) = (occupied list).take k ++ (occupied list).drop (k + 1) ∧
    (__list_remove list k).len = list.len - 1 := by
  have hsub : size_sub list.len 1 = list.len - 1 := size_sub_one_eq (by omega) hlen
  have h := remove_slots list.array list.len k hk
  unfold __list_remove
  simp only [hsub]
  by_cases hlast : k = list.len - 1
  · simp only [hlast, if_true] at h ⊢
    exact ⟨h, trivial⟩
  · simp only [hlast, if_false] at h ⊢
    exact ⟨h, trivial⟩

theorem ldyna_get_of_lt {α : Type} (list : ldyna α) (idx : Nat) (h : idx < list.len) :
    ldyna_get list idx = .ok (LDYNA_SUCCESS, some (list.array idx)) := by
  unfold ldyna_get
  have h1 : list.len ≠ 0 := by omega
  have h2 : ¬ (idx ≥ list.len) := by omega
  simp only [h1, h2, if_false]

theorem ldyna_get_of_occupied {α : Type} (list : ldyna α) (idx : Nat) (x : α)
    (h : (occupied list)[idx]? = some x) :
    ldyna_get list idx = .ok (LDYNA_SUCCESS, some x) := by
  rw [occupied_getElem?] at h
  by_cases hlt : idx < list.len
  · simp only [hlt, if_true, Option.some.injEq] at h
    rw [ldyna_get_of_lt list idx hlt, h]
  · simp [hlt] at h

/-- A successful insertion with bulk mode off: the result is `insert_place` on
the container, grown first when it was full. -/
theorem ldyna_insert_ok {α : Type} (list : ldyna α) (data : α) (idx : Nat)
    (realloc : Option (Nat → α)) (halloc : list.allocs = list.len → realloc ≠ none) :
    ∃ grown : ldyna α,
      ldyna_insert list data idx false realloc = (LDYNA_SUCCESS, insert_place grown data idx) ∧
      occupied grown = occupied list ∧ grown.len = list.len ∧ grown.compare = list.compare ∧
      grown.flags = list.flags ∧ grown.esize = list.esize ∧
      (∀ i, i < list.len → grown.array i = list.array i) := by
  unfold ldyna_insert
  by_cases hfull : list.allocs = list.len
  · cases realloc with
    | none => exact absurd rfl (halloc hfull)
    | some heap =>
      refine ⟨{ list with
                allocs := size_add list.allocs ldyna_block_size,
                array := fun i => if i < list.allocs then list.array i else heap i },
        by simp [hfull], ?_, rfl, rfl, rfl, rfl, ?_⟩
      · unfold occupied
        apply List.map_congr_left
        intro i hi
        have : i < list.len := List.mem_range.1 hi
        simp [hfull, this]
      · intro i hi
        simp [hfull, hi]
  · exact ⟨list, by simp [hfull], rfl, rfl, rfl, rfl, rfl, fun _ _ => rfl⟩

/-! ## The resolver on a sorted container -/

/-- When some occupied element is less than or equal to the key, the search on a
non-descending buffer ends at `right ≥ 1`. -/
theorem upper_bound_pos {α : Type} (compare : α → α → Int) (base : Nat → α) (key : α)
    (n : Nat) (hpre : IsTotalPreorder compare) (hn : n ≤ PTRDIFF_MAX)
    (hs : ∀ i j, i < j → j < n → compare (base i) (base j) ≤ 0)
    (hcand : ∃ i, i < n ∧ 0 ≤ compare key (base i)) :
    1 ≤ (bsearch_loop compare base key n 0 n).2 := by
  obtain ⟨_, _, h3⟩ := upper_bound_spec compare base key n hpre hn hs
  obtain ⟨i, hi, hc⟩ := hcand
  by_contra hr
  have := h3 i (by omega) hi
  omega

/-- Two positions that both split the first `n` slots into "less than or equal
to the key" and "greater than the key" coincide. -/
theorem upper_bound_unique {f g : Nat → Int} {n r r1 : Nat}
    (hfg : ∀ i, i < n → g i = f i) (hr : r ≤ n) (hr1 : r1 ≤ n)
    (h1 : ∀ i, i < r → 0 ≤ f i) (h2 : ∀ i, r ≤ i → i < n → f i < 0)
    (h3 : ∀ i, i < r1 → 0 ≤ g i) (h4 : ∀ i, r1 ≤ i → i < n → g i < 0) : r1 = r := by
  rcases Nat.lt_trichotomy r1 r with h | h | h
  · have a := h1 r1 h
    have b := h4 r1 (Nat.le_refl _) (by omega)
    have c := hfg r1 (by omega)
    omega
  · exact h
  · have a := h3 r h
    have b := h2 r (Nat.le_refl _) (by omega)
    have c := hfg r (by omega)
    omega

/-- Exact-match mode on a non-descending buffer that holds an element equal to
the key: the resolver stores the index of the last such element. -/
theorem resolver_exact_present {α : Type} (compare : α → α → Int) (base : Nat → α) (key : α)
    (n : Nat) (hpre : IsTotalPreorder compare) (hn : n ≤ PTRDIFF_MAX)
    (hs : ∀ i j, i < j → j < n → compare (base i) (base j) ≤ 0)
    (hpresent : ∃ j, j < n ∧ compare key (base j) = 0) :
    ∃ i, __bsearch_index_insert base n key false compare = some i ∧ i < n ∧
      compare key (base i) = 0 ∧ ∀ j, i < j → j < n → compare key (base j) < 0 := by
  obtain ⟨j, hj, hjeq⟩ := hpresent
  have hpos := upper_bound_pos compare base key n hpre hn hs ⟨j, hj, by omega⟩
  obtain ⟨h1, h2, h3⟩ := upper_bound_spec compare base key n hpre hn hs
  have hge := h2 ((bsearch_loop compare base key n 0 n).2 - 1) (by omega)
  have hjr : j < (bsearch_loop compare base key n 0 n).2 := by
    by_contra hcon
    have := h3 j (by omega) hj
    omega
  have hle : compare key (base ((bsearch_loop compare base key n 0 n).2 - 1)) ≤ 0 := by
    by_cases hjl : j = (bsearch_loop compare base key n 0 n).2 - 1
    · rw [← hjl]; omega
    · exact hpre.2 _ _ _ (by omega) (hs j _ (by omega) (by omega))
  have heq : compare key (base ((bsearch_loop compare base key n 0 n).2 - 1)) = 0 := by omega
  refine ⟨(bsearch_loop compare base key n 0 n).2 - 1, ?_, by omega, heq, ?_⟩
  · rw [bsearch_exact_of_pos compare base key n hn hpos]
    simp [heq]
  · intro i hi hin
    exact h3 i (by omega) hin

/-! ## Claims on the index resolver -/

/-- C2 - Stable insertion point.  On a non-descending occupied sequence, for a
key that some stored element is less than or equal to, the resolver in insertion
mode yields the upper bound `r`: every element before `r` is less than or equal
to the key and every element from `r` on is greater.  If stored elements equal
the key they all lie before `r` and slot `r - 1` holds one of them, so appending
that key to the sorted container, which puts it at `r`, places it right after
the end of the run of its equals. -/
theorem stable_insertion_point {α : Type} (list : ldyna α) (key : α)
    (hpre : IsTotalPreorder list.compare)
    (hsorted : NonDescending list.compare (occupied list))
    (hlen : list.len ≤ PTRDIFF_MAX)
    (hcand : ∃ i, i < list.len ∧ list.compare (list.array i) key ≤ 0) :
    ∃ r, __bsearch_index_insert list.array list.len key true list.compare = some r ∧
      r ≤ list.len ∧
      (∀ i, i < r → list.compare (list.array i) key ≤ 0) ∧
      (∀ i, r ≤ i → i < list.len → 0 < list.compare (list.array i) key) ∧
      (∀ j, j < list.len → list.compare (list.array j) key = 0 →
        j < r ∧ list.compare (list.array (r - 1)) key = 0) ∧
      (∀ realloc : Option (Nat → α), is_sorted_list list = true →
        (list.allocs = list.len → realloc ≠ none) →
        (ldyna_append list key false realloc).1 = LDYNA_SUCCESS ∧
        occupied (ldyna_append list key false realloc).2
          = (occupied list).take r ++ key :: (occupied list).drop r) := by
  have hs := nonDescending_index hsorted
  have hcand1 : ∃ i, i < list.len ∧ 0 ≤ list.compare key (list.array i) := by
    obtain ⟨i, hi, hc⟩ := hcand
    exact ⟨i, hi, (hpre.nonneg_iff _ _).2 hc⟩
  have hpos := upper_bound_pos list.compare list.array key list.len hpre hlen hs hcand1
  obtain ⟨h1, h2, h3⟩ := upper_bound_spec list.compare list.array key list.len hpre hlen hs
  refine ⟨(bsearch_loop list.compare list.array key list.len 0 list.len).2,
    bsearch_insert_of_pos _ _ _ _ hlen hpos, h1,
    fun i hi => (hpre.nonneg_iff _ _).1 (h2 i hi),
    fun i hi hin => (hpre.1 _ _).1 (h3 i hi hin), ?_, ?_⟩
  · intro j hj hjeq
    have hjr : j < (bsearch_loop list.compare list.array key list.len 0 list.len).2 := by
      by_contra hcon
      have := (hpre.1 _ _).1 (h3 j (by omega) hj)
      omega
    refine ⟨hjr, ?_⟩
    have hle := (hpre.nonneg_iff _ _).1
      (h2 ((bsearch_loop list.compare list.array key list.len 0 list.len).2 - 1) (by omega))
    have hkj : list.compare key (list.array j) ≤ 0 := by
      have := (hpre.eq_zero_iff _ _).1 hjeq
      omega
    have hge : list.compare key
        (list.array ((bsearch_loop list.compare list.array key list.len 0 list.len).2 - 1))
        ≤ 0 := by
      by_cases hjl : j = (bsearch_loop list.compare list.array key list.len 0 list.len).2 - 1
      · rw [← hjl]; exact hkj
      · exact hpre.2 _ _ _ hkj (hs j _ (by omega) (by omega))
    have := (hpre.nonneg_iff _ _).2 hge
    omega
  intro realloc hflag halloc
  obtain ⟨grown, hins, hocc, hglen, hgcmp, hgflags, _, hgarr⟩ :=
    ldyna_insert_ok list key list.len realloc halloc
  have hgs : ∀ i j, i < j → j < grown.len → grown.compare (grown.array i) (grown.array j) ≤ 0 := by
    intro i j hij hj
    rw [hgcmp, hgarr i (by omega), hgarr j (by omega)]
    exact hs i j hij (by omega)
  have hgpre : IsTotalPreorder grown.compare := by rw [hgcmp]; exact hpre
  have hgcand : ∃ i, i < grown.len ∧ 0 ≤ grown.compare key (grown.array i) := by
    obtain ⟨i, hi, hc⟩ := hcand1
    exact ⟨i, by omega, by rw [hgcmp, hgarr i hi]; exact hc⟩
  have hglen1 : grown.len ≤ PTRDIFF_MAX := by omega
  have hgpos := upper_bound_pos grown.compare grown.array key grown.len hgpre hglen1 hgs hgcand
  obtain ⟨g1, g2, g3⟩ :=
    upper_bound_spec grown.compare grown.array key grown.len hgpre hglen1 hgs
  have hsame : (bsearch_loop grown.compare grown.array key grown.len 0 grown.len).2
      = (bsearch_loop list.compare list.array key list.len 0 list.len).2 := by
    apply upper_bound_unique (n := list.len) (f := fun i => list.compare key (list.array i))
      (g := fun i => grown.compare key (grown.array i))
    · intro i hi
      simp only [hgcmp, hgarr i hi]
    · exact h1
    · omega
    · exact h2
    · exact h3
    · exact g2
    · intro i hi hin
      exact g3 i hi (by omega)
  have hres : resolve_index grown key list.len
      = (bsearch_loop list.compare list.array key list.len 0 list.len).2 := by
    have hgflag : is_sorted_list grown = true := by
      unfold is_sorted_list at hflag ⊢
      rw [hgflags]; exact hflag
    unfold resolve_index
    rw [hgflag, bsearch_insert_of_pos _ _ _ _ hglen1 hgpos]
    simp only [if_true, hsame]
  obtain ⟨hio, _⟩ := insert_at_spec grown key
    (bsearch_loop list.compare list.array key list.len 0 list.len).2 hglen1
  unfold ldyna_append
  rw [hins]
  refine ⟨rfl, ?_⟩
  show occupied (insert_place grown key list.len) = _
  unfold insert_place
  rw [hres, hio, hocc, hglen, Nat.min_eq_left h1]

/-- C3 - `index_of` finds present keys in a sorted container.  With bulk mode
off and an output slot supplied, on a sorted container whose occupied elements
are non-descending per a total-preorder comparator, a key that compares equal
to some stored element is reported with success and an index `i < length` whose
element compares equal to the key. -/
theorem index_of_sorted_present {α : Type} (list : ldyna α) (key : α) (slot : Nat)
    (hflag : is_sorted_list list = true)
    (hpre : IsTotalPreorder list.compare)
    (hsorted : NonDescending list.compare (occupied list))
    (hlen : list.len ≤ PTRDIFF_MAX)
    (hpresent : ∃ j, j < list.len ∧ list.compare key (list.array j) = 0) :
    ∃ i, ldyna_index_of list key (some slot) false = .ok (LDYNA_SUCCESS, some i) ∧
      i < list.len ∧ list.compare key (list.array i) = 0 := by
  obtain ⟨i, hres, hi, heq, _⟩ := resolver_exact_present list.compare list.array key list.len
    hpre hlen (nonDescending_index hsorted) hpresent
  refine ⟨i, ?_, hi, heq⟩
  unfold ldyna_index_of
  simp [hflag, hres]

/-- Witness of C2 on the sorted container `[1, 2, 2, 3]` and the key 2: the
resolver stores 3 and the appended 2 lands at index 3. -/
theorem stable_insertion_point_witness :
    IsTotalPreorder scenario_1223.compare ∧
    NonDescending scenario_1223.compare (occupied scenario_1223) ∧
    scenario_1223.len ≤ PTRDIFF_MAX ∧
    is_sorted_list scenario_1223 = true ∧
    __bsearch_index_insert scenario_1223.array scenario_1223.len 2 true scenario_1223.compare
      = some 3 ∧
    occupied (ldyna_append scenario_1223 2 false none).2 = [1, 2, 2, 2, 3] ∧
    ∃ r, __bsearch_index_insert scenario_1223.array scenario_1223.len 2 true
        scenario_1223.compare = some r ∧
      r ≤ scenario_1223.len ∧
      (∀ i, i < r → scenario_1223.compare (scenario_1223.array i) 2 ≤ 0) ∧
      (∀ i, r ≤ i → i < scenario_1223.len → 0 < scenario_1223.compare (scenario_1223.array i) 2) ∧
      (∀ j, j < scenario_1223.len → scenario_1223.compare (scenario_1223.array j) 2 = 0 →
        j < r ∧ scenario_1223.compare (scenario_1223.array (r - 1)) 2 = 0) ∧
      (∀ realloc : Option (Nat → Int), is_sorted_list scenario_1223 = true →
        (scenario_1223.allocs = scenario_1223.len → realloc ≠ none) →
        (ldyna_append scenario_1223 2 false realloc).1 = LDYNA_SUCCESS ∧
        occupied (ldyna_append scenario_1223 2 false realloc).2
          = (occupied scenario_1223).take r ++ 2 :: (occupied scenario_1223).drop r) :=
  ⟨compare_int_total_preorder, by decide, by decide, by decide, by decide, by decide,
    stable_insertion_point scenario_1223 2 compare_int_total_preorder (by decide) (by decide)
      ⟨0, by decide, by decide⟩⟩

/-- Witness of C3 on the sorted container `[1, 2, 2, 3]` and the key 3. -/
theorem index_of_sorted_present_witness :
    is_sorted_list scenario_1223 = true ∧
    IsTotalPreorder scenario_1223.compare ∧
    NonDescending scenario_1223.compare (occupied scenario_1223) ∧
    scenario_1223.len ≤ PTRDIFF_MAX ∧
    scenario_1223.compare 3 (scenario_1223.array 3) = 0 ∧
    ∃ i, ldyna_index_of scenario_1223 3 (some 99) false = .ok (LDYNA_SUCCESS, some i) ∧
      i < scenario_1223.len ∧ scenario_1223.compare 3 (scenario_1223.array i) = 0 :=
  ⟨by decide, compare_int_total_preorder, by decide, by decide, by decide,
    index_of_sorted_present scenario_1223 3 99 (by decide) compare_int_total_preorder
      (by decide) (by decide) ⟨3, by decide, by decide⟩⟩

/-- C1 - The sorted-order invariant, evaluated where the code breaks it.  A
sorted integer container is created on memory whose slot in front of the buffer
reads 0.  Appending 1 and then 0 succeeds twice and leaves the occupied sequence
`[1, 0]`: for the key 0 the search ends with `right = 0`, the unguarded
comparison at `right - 1 = SIZE_MAX` reads the slot in front of the buffer and
finds it equal, and the wrapped index is clamped to an append. -/
theorem sorted_append_breaks_order :
    IsTotalPreorder compare_int ∧
    ldyna_create 4 compare_int LDYNA_SORT zero_heap = .ok (created_int LDYNA_SORT) ∧
    (append_all (created_int LDYNA_SORT) [(1, zero_heap), (0, zero_heap)]).1
      = [LDYNA_SUCCESS, LDYNA_SUCCESS] ∧
    occupied (append_all (created_int LDYNA_SORT) [(1, zero_heap), (0, zero_heap)]).2 = [1, 0] ∧
    ¬ NonDescending compare_int
        (occupied (append_all (created_int LDYNA_SORT) [(1, zero_heap), (0, zero_heap)]).2) :=
  ⟨compare_int_total_preorder, rfl, by decide, by decide, by decide⟩

/-- C4 - `index_of` on absent keys, evaluated where the code breaks the claim.
On the freshly created sorted integer container (empty) and on the sorted
container `[1]`, looking up the key 0, which no stored element equals, returns
`LDYNA_SUCCESS` and stores the index `SIZE_MAX`: the search ends with
`right = 0` and the unguarded comparison at `right - 1` reads the slot in front
of the buffer, which holds 0. -/
theorem index_of_absent_reports_success :
    occupied (created_int LDYNA_SORT) = [] ∧
    ldyna_index_of (created_int LDYNA_SORT) 0 (some 99) false
      = .ok (LDYNA_SUCCESS, some SIZE_MAX) ∧
    occupied (append_all (created_int LDYNA_SORT) [(1, zero_heap)]).2 = [1] ∧
    ldyna_index_of (append_all (created_int LDYNA_SORT) [(1, zero_heap)]).2 0 (some 99) false
      = .ok (LDYNA_SUCCESS, some SIZE_MAX) :=
  ⟨by decide, by decide, by decide, by decide⟩

/-- C5 - On the sorted integer container `[2, 2, 3]`, obtained by appending
3, 1, 2, 2 and removing index 0 (which hands back 1), `index_of(2)` stores
index 1, not index 0. -/
theorem index_of_duplicate_not_first :
    occupied scenario_1223 = [1, 2, 2, 3] ∧
    ldyna_remove scenario_1223 0 = .ok (LDYNA_SUCCESS, 1, scenario_223) ∧
    occupied scenario_223 = [2, 2, 3] ∧
    ldyna_index_of scenario_223 2 (some 99) false = .ok (LDYNA_SUCCESS, some 1) ∧
    ldyna_index_of scenario_223 2 (some 99) false ≠ .ok (LDYNA_SUCCESS, some 0) :=
  ⟨by decide, rfl, by decide, by decide, by decide⟩

/-- C5 (as amended) - `index_of` on a sorted container holding several elements
equal to the key returns the last (largest-index) occurrence: the index stored
holds an element equal to the key and every later occupied element is greater
than the key. -/
theorem index_of_sorted_last_occurrence {α : Type} (list : ldyna α) (key : α) (slot : Nat)
    (hflag : is_sorted_list list = true)
    (hpre : IsTotalPreorder list.compare)
    (hsorted : NonDescending list.compare (occupied list))
    (hlen : list.len ≤ PTRDIFF_MAX)
    (hpresent : ∃ j, j < list.len ∧ list.compare key (list.array j) = 0) :
    ∃ i, ldyna_index_of list key (some slot) false = .ok (LDYNA_SUCCESS, some i) ∧
      i < list.len ∧ list.compare key (list.array i) = 0 ∧
      ∀ j, i < j → j < list.len → list.compare key (list.array j) < 0 := by
  obtain ⟨i, hres, hi, heq, hlast⟩ := resolver_exact_present list.compare list.array key
    list.len hpre hlen (nonDescending_index hsorted) hpresent
  refine ⟨i, ?_, hi, heq, hlast⟩
  unfold ldyna_index_of
  simp [hflag, hres]

/-- Witness of C5 as amended, on the sorted container `[2, 2, 3]` and the key
2: the index stored is 1. -/
theorem index_of_sorted_last_occurrence_witness :
    is_sorted_list scenario_223 = true ∧
    IsTotalPreorder scenario_223.compare ∧
    NonDescending scenario_223.compare (occupied scenario_223) ∧
    scenario_223.len ≤ PTRDIFF_MAX ∧
    occupied scenario_223 = [2, 2, 3] ∧
    ldyna_index_of scenario_223 2 (some 99) false = .ok (LDYNA_SUCCESS, some 1) ∧
    ∃ i, ldyna_index_of scenario_223 2 (some 99) false = .ok (LDYNA_SUCCESS, some i) ∧
      i < scenario_223.len ∧ scenario_223.compare 2 (scenario_223.array i) = 0 ∧
      ∀ j, i < j → j < scenario_223.len → scenario_223.compare 2 (scenario_223.array j) < 0 :=
  ⟨by decide, compare_int_total_preorder, by decide, by decide, by decide, by decide,
    index_of_sorted_last_occurrence scenario_223 2 99 (by decide) compare_int_total_preorder
      (by decide) (by decide) ⟨0, by decide, by decide⟩⟩

/-! ## Sorted permutations -/

theorem countP_ge_of_prefix {α : Type} (p : α → Bool) (l : List α) (i : Nat)
    (hi : i < l.length) (h : ∀ j (hj : j < l.length), j ≤ i → p l[j] = true) :
    i + 1 ≤ List.countP p l := by
  have hall : List.countP p (List.take (i + 1) l) = (List.take (i + 1) l).length := by
    rw [List.countP_eq_length]
    intro a ha
    obtain ⟨j, hj, rfl⟩ := List.mem_take_iff_getElem.1 ha
    have hj1 : j < i + 1 := lt_of_lt_of_le hj (Nat.min_le_left _ _)
    exact h j (lt_of_lt_of_le hj (Nat.min_le_right _ _)) (by omega)
  have hsplit : List.countP p l
      = List.countP p (List.take (i + 1) l) + List.countP p (List.drop (i + 1) l) := by
    rw [← List.countP_append, List.take_append_drop]
  rw [hsplit, hall, List.length_take]
  have : min (i + 1) l.length = i + 1 := by omega
  omega

theorem countP_le_of_suffix {α : Type} (p : α → Bool) (l : List α) (i : Nat)
    (h : ∀ j (hj : j < l.length), i ≤ j → p l[j] = false) :
    List.countP p l ≤ i := by
  have hnone : List.countP p (List.drop i l) = 0 := by
    rw [List.countP_eq_zero]
    intro a ha
    obtain ⟨j, hj, rfl⟩ := List.mem_drop_iff_getElem.1 ha
    rw [h (i + j) (by omega) (by omega)]
    simp
  have hsplit : List.countP p l
      = List.countP p (List.take i l) + List.countP p (List.drop i l) := by
    rw [← List.countP_append, List.take_append_drop]
  have hlen := List.countP_le_length p (l := List.take i l)
  rw [List.length_take] at hlen
  have : min i l.length ≤ i := Nat.min_le_left _ _
  omega

/-- In two non-descending arrangements of the same elements, the element at a
position of the first is less than or equal to the element at that position of
the second. -/
theorem sorted_perm_le {α : Type} {compare : α → α → Int} (hpre : IsTotalPreorder compare)
    {l1 l2 : List α} (hperm : l1.Perm l2) (h1 : NonDescending compare l1)
    (h2 : NonDescending compare l2) (i : Nat) (hi1 : i < l1.length) (hi2 : i < l2.length) :
    compare l1[i] l2[i] ≤ 0 := by
  by_contra hcon
  have hrefl : ∀ a : α, compare a a ≤ 0 := by
    intro a
    have := hpre.1 a a
    by_contra hc
    omega
  generalize hy : l2[i] = y at hcon
  have hcount := hperm.countP_eq (fun x => decide (compare x y ≤ 0))
  have hlow : i + 1 ≤ List.countP (fun x => decide (compare x y ≤ 0)) l2 := by
    apply countP_ge_of_prefix _ _ _ hi2
    intro j hj hji
    simp only [decide_eq_true_eq]
    rw [← hy]
    by_cases hjeq : j = i
    · subst hjeq; exact hrefl _
    · exact List.pairwise_iff_getElem.1 h2 j i hj hi2 (by omega)
  have hhigh : List.countP (fun x => decide (compare x y ≤ 0)) l1 ≤ i := by
    apply countP_le_of_suffix
    intro j hj hij
    simp only [decide_eq_false_iff_not]
    intro hle
    have hstep : compare l1[i] l1[j] ≤ 0 := by
      by_cases hjeq : j = i
      · subst hjeq; exact hrefl _
      · exact List.pairwise_iff_getElem.1 h1 i j hi1 hj (by omega)
    exact hcon (hpre.2 _ _ _ hstep hle)
  omega

/-- Two non-descending arrangements of the same elements agree position by
position up to the comparator. -/
theorem sorted_perm_pointwise {α : Type} {compare : α → α → Int} (hpre : IsTotalPreorder compare)
    {l1 l2 : List α} (hperm : l1.Perm l2) (h1 : NonDescending compare l1)
    (h2 : NonDescending compare l2) (i : Nat) (hi1 : i < l1.length) (hi2 : i < l2.length) :
    compare l1[i] l2[i] = 0 := by
  have ha := sorted_perm_le hpre hperm h1 h2 i hi1 hi2
  have hb := sorted_perm_le hpre hperm.symm h2 h1 i hi2 hi1
  have := hpre.1 l1[i] l2[i]
  omega

/-! ## Insertion and removal on the list of occupied elements -/

theorem is_sorted_list_congr {α : Type} {a b : ldyna α} (h : a.flags = b.flags) :
    is_sorted_list a = is_sorted_list b := by
  unfold is_sorted_list; rw [h]

theorem is_sorted_list_of_flag {α : Type} {a : ldyna α} (h : a.flags = LDYNA_SORT) :
    is_sorted_list a = true := by
  unfold is_sorted_list; rw [h]; decide

/-- A successful insertion with bulk mode off puts the element at some position
`k ≤ length` of the occupied sequence, `min idx length` on an unsorted list. -/
theorem ldyna_insert_spec {α : Type} (list : ldyna α) (data : α) (idx : Nat)
    (realloc : Option (Nat → α)) (hlen : list.len ≤ PTRDIFF_MAX)
    (halloc : list.allocs = list.len → realloc ≠ none) :
    ∃ k, k ≤ list.len ∧ (is_sorted_list list = false → k = min idx list.len) ∧
      (ldyna_insert list data idx false realloc).1 = LDYNA_SUCCESS ∧
      occupied (ldyna_insert list data idx false realloc).2
        = (occupied list).take k ++ data :: (occupied list).drop k ∧
      (ldyna_insert list data idx false realloc).2.len = list.len + 1 ∧
      (ldyna_insert list data idx false realloc).2.compare = list.compare ∧
      (ldyna_insert list data idx false realloc).2.flags = list.flags := by
  obtain ⟨grown, hins, hocc, hglen, hgcmp, hgflags, _, _⟩ :=
    ldyna_insert_ok list data idx realloc halloc
  obtain ⟨h1, h2, h3, h4, _, _⟩ :=
    insert_at_spec grown data (resolve_index grown data idx) (by omega)
  refine ⟨min (resolve_index grown data idx) list.len, Nat.min_le_right _ _, ?_, ?_, ?_, ?_, ?_, ?_⟩
  · intro hflag
    have hg : is_sorted_list grown = false := by
      rw [is_sorted_list_congr hgflags]; exact hflag
    unfold resolve_index
    simp [hg]
  · rw [hins]
  · rw [hins]
    show occupied (insert_place grown data idx) = _
    unfold insert_place
    rw [h1, hocc, hglen]
  · rw [hins]
    show (insert_place grown data idx).len = _
    unfold insert_place
    rw [h2, hglen]
  · rw [hins]
    show (insert_place grown data idx).compare = _
    unfold insert_place
    rw [h3, hgcmp]
  · rw [hins]
    show (insert_place grown data idx).flags = _
    unfold insert_place
    rw [h4, hgflags]

/-- The append loop succeeds at every step, counts every element and keeps the
comparator and the flags; the occupied sequence is a rearrangement of the old
one followed by the appended values, and on an unsorted list it is exactly
that. -/
theorem append_all_spec {α : Type} (xs : List (α × (Nat → α))) :
    ∀ list : ldyna α, list.len + xs.length ≤ PTRDIFF_MAX →
      (append_all list xs).1 = xs.map (fun _ => LDYNA_SUCCESS) ∧
      (append_all list xs).2.len = list.len + xs.length ∧
      (append_all list xs).2.compare = list.compare ∧
      (append_all list xs).2.flags = list.flags ∧
      (occupied (append_all list xs).2).Perm (occupied list ++ xs.map Prod.fst) ∧
      (is_sorted_list list = false →
        occupied (append_all list xs).2 = occupied list ++ xs.map Prod.fst) := by
  induction xs with
  | nil =>
    intro list _
    simp [append_all]
  | cons x rest ih =>
    intro list hlen
    obtain ⟨data, heap⟩ := x
    simp only [List.length_cons] at hlen
    obtain ⟨k, hk, hkun, hcode, hocc, hl, hcmp, hflags⟩ :=
      ldyna_insert_spec list data list.len (some heap) (by omega) (fun _ => by simp)
    obtain ⟨i1, i2, i3, i4, i5, i6⟩ :=
      ih (ldyna_insert list data list.len false (some heap)).2 (by omega)
    have hstep : append_all list ((data, heap) :: rest)
        = ((ldyna_insert list data list.len false (some heap)).1 ::
            (append_all (ldyna_insert list data list.len false (some heap)).2 rest).1,
           (append_all (ldyna_insert list data list.len false (some heap)).2 rest).2) := rfl
    rw [hstep]
    refine ⟨?_, ?_, ?_, ?_, ?_, ?_⟩
    · simp [hcode, i1]
    · simp only [i2, hl, List.length_cons]; omega
    · simp only [i3, hcmp]
    · simp only [i4, hflags]
    · refine i5.trans ?_
      rw [hocc]
      simp only [List.map_cons, List.append_assoc]
      have hmid : ((occupied list).take k ++ data :: (occupied list).drop k).Perm
          (occupied list ++ [data]) := by
        refine List.perm_middle.trans ?_
        rw [List.take_append_drop]
        exact (List.perm_append_singleton data (occupied list)).symm
      have := hmid.append_right (rest.map Prod.fst)
      simpa using this
    · intro hflag
      have hflag1 : is_sorted_list (ldyna_insert list data list.len false (some heap)).2 = false := by
        rw [is_sorted_list_congr hflags]; exact hflag
      have htake : (occupied list).take list.len = occupied list :=
        List.take_of_length_le (by rw [occupied_length])
      have hdrop : (occupied list).drop list.len = [] :=
        List.drop_of_length_le (by rw [occupied_length])
      rw [i6 hflag1, hocc, hkun hflag, Nat.min_self, htake, hdrop]
      simp

theorem ldyna_remove_spec {α : Type} (list : ldyna α) (idx : Nat) (h1 : 1 ≤ list.len)
    (h2 : list.len ≤ SIZE_MAX) :
    ldyna_remove list idx
      = .ok (LDYNA_SUCCESS, list.array (min idx (list.len - 1)),
          __list_remove list (min idx (list.len - 1))) ∧
    occupied (__list_remove list (min idx (list.len - 1)))
      = (occupied list).eraseIdx (min idx (list.len - 1)) ∧
    (__list_remove list (min idx (list.len - 1))).len = list.len - 1 := by
  have hk : (if idx ≥ list.len then list.len - 1 else idx) = min idx (list.len - 1) := by
    split <;> omega
  obtain ⟨r1, r2⟩ := list_remove_spec list (min idx (list.len - 1)) (by omega) h2
  refine ⟨?_, ?_, r2⟩
  · unfold ldyna_remove
    have hne : list.len ≠ 0 := by omega
    simp only [hne, if_false, hk]
  · rw [r1, List.eraseIdx_eq_take_drop_succ]

/-- Removing index 0 as many times as there are elements hands the occupied
elements back in their stored order and empties the container. -/
theorem remove_front_spec {α : Type} :
    ∀ (n : Nat) (list : ldyna α), list.len = n → n ≤ SIZE_MAX →
      ∃ last, remove_front n list = .ok (occupied list, last) ∧ last.len = 0 := by
  intro n
  induction n with
  | zero =>
    intro list hl _
    refine ⟨list, ?_, hl⟩
    simp [remove_front, occupied, hl]
  | succ n ih =>
    intro list hl hmax
    obtain ⟨r1, r2, r3⟩ := ldyna_remove_spec list 0 (by omega) (by omega)
    simp only [Nat.zero_min] at r1 r2 r3
    obtain ⟨last, hlast, hzero⟩ := ih (__list_remove list 0) (by omega) (by omega)
    refine ⟨last, ?_, hzero⟩
    have hhead : occupied list = list.array 0 :: occupied (__list_remove list 0) := by
      rw [r2]
      have h0 := occupied_getElem? list 0
      have hpos : 0 < list.len := by omega
      simp only [hpos, if_true] at h0
      cases hocc : occupied list with
      | nil => rw [hocc] at h0; simp at h0
      | cons a t =>
        rw [hocc] at h0
        simp only [List.getElem?_cons_zero, Option.some.injEq] at h0
        simp [h0]
    simp only [remove_front, r1, hlast, hhead]

/-! ## Claims on the container operations -/

/-- C6 - No element is lost or invented by sorted insertion.  On a container
created with `LDYNA_SORT`, appending a sequence of values with bulk mode off and
allocation succeeding returns success every time, `ldyna_len` equals the number
of appends and the occupied elements are a permutation of the appended values.
Together with sortedness of the occupied elements, `get(i)` then returns the
i-th value of every sorted arrangement of the input, up to the comparator, and
exactly when values that compare equal are identical. -/
theorem sorted_append_keeps_elements {α : Type} (esize : Nat) (compare : α → α → Int)
    (heap : Nat → α) (list : ldyna α) (xs : List (α × (Nat → α)))
    (hcreate : ldyna_create esize compare LDYNA_SORT heap = .ok list)
    (hn : xs.length ≤ PTRDIFF_MAX) :
    is_sorted_list list = true ∧
    (append_all list xs).1 = xs.map (fun _ => LDYNA_SUCCESS) ∧
    ldyna_len (append_all list xs).2 = xs.length ∧
    (occupied (append_all list xs).2).Perm (xs.map Prod.fst) ∧
    (IsTotalPreorder compare → NonDescending compare (occupied (append_all list xs).2) →
      ∀ ys : List α, ys.Perm (xs.map Prod.fst) → NonDescending compare ys →
        ∀ (i : Nat) (hi : i < ys.length),
          ∃ data, ldyna_get (append_all list xs).2 i = .ok (LDYNA_SUCCESS, some data) ∧
            compare data ys[i] = 0 ∧ ((∀ a b, compare a b = 0 → a = b) → data = ys[i])) := by
  unfold ldyna_create at hcreate
  by_cases hesize : esize = 0
  · simp [hesize] at hcreate
  · simp only [hesize, if_false, Result.ok.injEq] at hcreate
    subst hcreate
    obtain ⟨a1, a2, _, _, a5, _⟩ := append_all_spec xs
      { allocs := ldyna_block_size, len := 0, esize := esize, compare := compare,
        flags := LDYNA_SORT, array := heap } (by simpa using hn)
    have hperm : (occupied (append_all
        { allocs := ldyna_block_size, len := 0, esize := esize, compare := compare,
          flags := LDYNA_SORT, array := heap } xs).2).Perm (xs.map Prod.fst) := by
      simpa [occupied] using a5
    refine ⟨is_sorted_list_of_flag rfl, a1, by simpa [ldyna_len] using a2, hperm, ?_⟩
    intro hpre hsorted ys hys hysorted i hi
    have hlen := (hperm.trans hys.symm).length_eq
    have hi1 : i < (occupied (append_all
        { allocs := ldyna_block_size, len := 0, esize := esize, compare := compare,
          flags := LDYNA_SORT, array := heap } xs).2).length := by omega
    refine ⟨(occupied (append_all
        { allocs := ldyna_block_size, len := 0, esize := esize, compare := compare,
          flags := LDYNA_SORT, array := heap } xs).2)[i], ?_, ?_, ?_⟩
    · exact ldyna_get_of_occupied _ _ _ (List.getElem?_eq_getElem hi1)
    · exact sorted_perm_pointwise hpre (hperm.trans hys.symm) hsorted hysorted i hi1 hi
    · intro hanti
      exact hanti _ _
        (sorted_perm_pointwise hpre (hperm.trans hys.symm) hsorted hysorted i hi1 hi)

/-- C7 - Positional insert on an unsorted container.  With bulk mode off and
allocation succeeding, `insert(e, at)` succeeds and turns the occupied sequence
into the original with `e` inserted at `k = min at length`, the length growing
by one.  So `get(at)` right afterwards returns `e` when `at ≤ length`, an index
beyond the length appends, and values appended one after another are read back
by `get` in the order of their insertion. -/
theorem insert_unsorted_positional {α : Type} (list : ldyna α) (e : α) (pos : Nat)
    (realloc : Option (Nat → α))
    (hflag : is_sorted_list list = false)
    (hlen : list.len ≤ PTRDIFF_MAX)
    (halloc : list.allocs = list.len → realloc ≠ none) :
    (ldyna_insert list e pos false realloc).1 = LDYNA_SUCCESS ∧
    occupied (ldyna_insert list e pos false realloc).2
      = (occupied list).take (min pos list.len) ++ e :: (occupied list).drop (min pos list.len) ∧
    ldyna_len (ldyna_insert list e pos false realloc).2 = ldyna_len list + 1 ∧
    (pos ≤ list.len →
      ldyna_get (ldyna_insert list e pos false realloc).2 pos = .ok (LDYNA_SUCCESS, some e)) ∧
    (list.len ≤ pos →
      occupied (ldyna_insert list e pos false realloc).2 = occupied list ++ [e]) ∧
    (∀ xs : List (α × (Nat → α)), list.len + xs.length ≤ PTRDIFF_MAX →
      (append_all list xs).1 = xs.map (fun _ => LDYNA_SUCCESS) ∧
      occupied (append_all list xs).2 = occupied list ++ xs.map Prod.fst ∧
      ∀ (i : Nat) (hi : i < xs.length),
        ldyna_get (append_all list xs).2 (list.len + i) = .ok (LDYNA_SUCCESS, some xs[i].1)) := by
  obtain ⟨k, _, hk, hcode, hocc, hl, _, _⟩ := ldyna_insert_spec list e pos realloc hlen halloc
  have hk1 := hk hflag
  subst hk1
  refine ⟨hcode, hocc, hl, ?_, ?_, ?_⟩
  · intro hpos
    apply ldyna_get_of_occupied
    rw [hocc, Nat.min_eq_left hpos, List.getElem?_append_right (by simp [occupied_length, hpos])]
    simp [occupied_length, hpos]
  · intro hpos
    rw [hocc, Nat.min_eq_right hpos,
      List.take_of_length_le (by rw [occupied_length]),
      List.drop_of_length_le (by rw [occupied_length])]
  · intro xs hxs
    obtain ⟨a1, _, _, _, _, a6⟩ := append_all_spec xs list hxs
    refine ⟨a1, a6 hflag, ?_⟩
    intro i hi
    apply ldyna_get_of_occupied
    rw [a6 hflag, List.getElem?_append_right (by simp [occupied_length])]
    simp [occupied_length, hi]

/-- C8 - `remove` on a non-empty container.  For a length of at least one and
any index, `remove(idx)` succeeds, hands back the element at
`k = min idx (length - 1)` and leaves the occupied sequence with slot `k`
deleted, the other elements in their previous order and the length one less.
Removing index 0 again and again therefore yields the elements in their stored
order. -/
theorem remove_nonempty {α : Type} (list : ldyna α) (idx : Nat)
    (h1 : 1 ≤ list.len) (h2 : list.len ≤ SIZE_MAX) :
    ∃ (data : α) (list1 : ldyna α),
      ldyna_remove list idx = .ok (LDYNA_SUCCESS, data, list1) ∧
      (occupied list)[min idx (list.len - 1)]? = some data ∧
      occupied list1 = (occupied list).eraseIdx (min idx (list.len - 1)) ∧
      ldyna_len list1 = ldyna_len list - 1 ∧
      ∃ last, remove_front list.len list = .ok (occupied list, last) ∧ ldyna_len last = 0 := by
  obtain ⟨r1, r2, r3⟩ := ldyna_remove_spec list idx h1 h2
  refine ⟨_, _, r1, ?_, r2, r3, remove_front_spec list.len list rfl h2⟩
  rw [occupied_getElem?]
  have : min idx (list.len - 1) < list.len := by omega
  simp [this]

/-- Witness of C6: the values 3, 1, 2, 2 appended to a fresh sorted integer
container. -/
theorem sorted_append_keeps_elements_witness :
    ldyna_create 4 compare_int LDYNA_SORT zero_heap = .ok (created_int LDYNA_SORT) ∧
    values_3122.length ≤ PTRDIFF_MAX ∧
    IsTotalPreorder compare_int ∧
    NonDescending compare_int (occupied (append_all (created_int LDYNA_SORT) values_3122).2) ∧
    occupied (append_all (created_int LDYNA_SORT) values_3122).2 = [1, 2, 2, 3] ∧
    is_sorted_list (created_int LDYNA_SORT) = true ∧
    (append_all (created_int LDYNA_SORT) values_3122).1
      = values_3122.map (fun _ => LDYNA_SUCCESS) ∧
    ldyna_len (append_all (created_int LDYNA_SORT) values_3122).2 = values_3122.length ∧
    (occupied (append_all (created_int LDYNA_SORT) values_3122).2).Perm
      (values_3122.map Prod.fst) ∧
    (IsTotalPreorder compare_int →
      NonDescending compare_int (occupied (append_all (created_int LDYNA_SORT) values_3122).2) →
      ∀ ys : List Int, ys.Perm (values_3122.map Prod.fst) → NonDescending compare_int ys →
        ∀ (i : Nat) (hi : i < ys.length),
          ∃ data,
            ldyna_get (append_all (created_int LDYNA_SORT) values_3122).2 i
              = .ok (LDYNA_SUCCESS, some data) ∧
            compare_int data ys[i] = 0 ∧
            ((∀ a b, compare_int a b = 0 → a = b) → data = ys[i])) :=
  ⟨rfl, by decide, compare_int_total_preorder, by decide, by decide,
    sorted_append_keeps_elements 4 compare_int zero_heap (created_int LDYNA_SORT) values_3122
      rfl (by decide)⟩

/-- Witness of C7: 7 inserted at index 0 of the unsorted container `[10]`. -/
theorem insert_unsorted_positional_witness :
    is_sorted_list scenario_10 = false ∧ scenario_10.len ≤ PTRDIFF_MAX ∧
    (ldyna_insert scenario_10 7 0 false none).1 = LDYNA_SUCCESS ∧
    occupied (ldyna_insert scenario_10 7 0 false none).2
      = (occupied scenario_10).take (min 0 scenario_10.len)
          ++ 7 :: (occupied scenario_10).drop (min 0 scenario_10.len) ∧
    ldyna_len (ldyna_insert scenario_10 7 0 false none).2 = ldyna_len scenario_10 + 1 ∧
    (0 ≤ scenario_10.len →
      ldyna_get (ldyna_insert scenario_10 7 0 false none).2 0 = .ok (LDYNA_SUCCESS, some 7)) ∧
    (scenario_10.len ≤ 0 →
      occupied (ldyna_insert scenario_10 7 0 false none).2 = occupied scenario_10 ++ [7]) ∧
    (∀ xs : List (Int × (Nat → Int)), scenario_10.len + xs.length ≤ PTRDIFF_MAX →
      (append_all scenario_10 xs).1 = xs.map (fun _ => LDYNA_SUCCESS) ∧
      occupied (append_all scenario_10 xs).2 = occupied scenario_10 ++ xs.map Prod.fst ∧
      ∀ (i : Nat) (hi : i < xs.length),
        ldyna_get (append_all scenario_10 xs).2 (scenario_10.len + i)
          = .ok (LDYNA_SUCCESS, some xs[i].1)) :=
  ⟨by decide, by decide,
    insert_unsorted_positional scenario_10 7 0 none (by decide) (by decide)
      (fun h => absurd h (by decide))⟩

/-- Witness of C8: index 9, out of range, removed from the container
`[1, 2, 2, 3]`. -/
theorem remove_nonempty_witness :
    1 ≤ scenario_1223.len ∧ scenario_1223.len ≤ SIZE_MAX ∧
    ∃ (data : Int) (list1 : ldyna Int),
      ldyna_remove scenario_1223 9 = .ok (LDYNA_SUCCESS, data, list1) ∧
      (occupied scenario_1223)[min 9 (scenario_1223.len - 1)]? = some data ∧
      occupied list1 = (occupied scenario_1223).eraseIdx (min 9 (scenario_1223.len - 1)) ∧
      ldyna_len list1 = ldyna_len scenario_1223 - 1 ∧
      ∃ last, remove_front scenario_1223.len scenario_1223 = .ok (occupied scenario_1223, last) ∧
        ldyna_len last = 0 :=
  ⟨by decide, by decide, remove_nonempty scenario_1223 9 (by decide) (by decide)⟩

/-- C9 - `get` with an out-of-range index, evaluated on the scenario of the
claim.  After appending 10 to an empty unsorted integer container, `get(0)`
returns 10, while `get(5)` returns `LDYNA_NULLPTR_WARN` and copies nothing: the
guard `idx >= list->len` returns before the clamp to `len - 1` is reached. -/
theorem get_out_of_range_is_rejected :
    ldyna_create 4 compare_int LDYNA_NONE zero_heap = .ok (created_int LDYNA_NONE) ∧
    ldyna_append (created_int LDYNA_NONE) 10 false none = (LDYNA_SUCCESS, scenario_10) ∧
    occupied scenario_10 = [10] ∧
    ldyna_get scenario_10 0 = .ok (LDYNA_SUCCESS, some 10) ∧
    ldyna_get scenario_10 5 = .ok (LDYNA_NULLPTR_WARN, none) ∧
    ldyna_get scenario_10 5 ≠ .ok (LDYNA_SUCCESS, some 10) :=
  ⟨rfl, rfl, by decide, by decide, by decide, by decide⟩

/-- C10 - `remove` and `get` on the freshly created container do not return an
error result: both end in the failed assertion `assert(list->len)`. -/
theorem empty_remove_get_abort :
    ldyna_create 4 compare_int LDYNA_NONE zero_heap = .ok (created_int LDYNA_NONE) ∧
    ldyna_len (created_int LDYNA_NONE) = 0 ∧
    ldyna_remove (created_int LDYNA_NONE) 0 = .abort ∧
    ldyna_get (created_int LDYNA_NONE) 0 = .abort ∧
    (∀ r, ldyna_remove (created_int LDYNA_NONE) 0 ≠ .ok r) ∧
    (∀ r, ldyna_get (created_int LDYNA_NONE) 0 ≠ .ok r) :=
  ⟨rfl, rfl, rfl, rfl, fun _ h => Result.noConfusion h, fun _ h => Result.noConfusion h⟩

/-- C10 (as amended) - `remove` and `get` on a container with zero elements
abort on the failed assertion `assert(list->len)`, whatever the index; no
result is returned and nothing is written. -/
theorem empty_container_aborts {α : Type} (list : ldyna α) (idx : Nat)
    (hempty : ldyna_len list = 0) :
    ldyna_remove list idx = .abort ∧ ldyna_get list idx = .abort := by
  unfold ldyna_len at hempty
  unfold ldyna_remove ldyna_get
  simp [hempty]

/-- Witness of C10 as amended, on the freshly created unsorted container. -/
theorem empty_container_aborts_witness :
    ldyna_len (created_int LDYNA_NONE) = 0 ∧
    ldyna_remove (created_int LDYNA_NONE) 3 = .abort ∧
    ldyna_get (created_int LDYNA_NONE) 3 = .abort :=
  ⟨rfl, empty_container_aborts (created_int LDYNA_NONE) 3 rfl⟩

/-! ## Claims on bulk mode and allocation failure -/

/-- C11 - `insert` is rejected atomically in bulk mode.  With the bulk flag
active, as `ldyna_start_bulk_add` leaves it, `insert` and `append` return
`LDYNA_INBULK_WARN` on every container, element and index, and the container
after the call is the container before it: same length, same capacity, same
occupied elements. -/
theorem insert_in_bulk_rejected {α : Type} (list : ldyna α) (data : α) (idx : Nat)
    (inbulk : Bool) (realloc : Option (Nat → α)) :
    (ldyna_start_bulk_add list inbulk).2 = true ∧
    ldyna_insert list data idx (ldyna_start_bulk_add list inbulk).2 realloc
      = (LDYNA_INBULK_WARN, list) ∧
    ldyna_append list data (ldyna_start_bulk_add list inbulk).2 realloc
      = (LDYNA_INBULK_WARN, list) ∧
    ldyna_len (ldyna_insert list data idx true realloc).2 = ldyna_len list ∧
    (ldyna_insert list data idx true realloc).2.allocs = list.allocs ∧
    occupied (ldyna_insert list data idx true realloc).2 = occupied list ∧
    ldyna_len (ldyna_append list data true realloc).2 = ldyna_len list ∧
    (ldyna_append list data true realloc).2.allocs = list.allocs ∧
    occupied (ldyna_append list data true realloc).2 = occupied list := by
  have h1 : ldyna_insert list data idx true realloc = (LDYNA_INBULK_WARN, list) := by
    unfold ldyna_insert; simp
  have h2 : ldyna_append list data true realloc = (LDYNA_INBULK_WARN, list) := by
    unfold ldyna_append ldyna_insert; simp
  have h0 : (ldyna_start_bulk_add list inbulk).2 = true := rfl
  rw [h0, h1, h2]
  exact ⟨rfl, rfl, rfl, rfl, rfl, rfl, rfl, rfl, rfl⟩

/-- C12 - Adding in bulk mode, evaluated where the code breaks the claim.  On a
freshly created sorted integer container `ldyna_start_bulk_add` sets the flag,
and the append of 5 made with that flag returns `LDYNA_INBULK_WARN` and stores
nothing: the length stays 0 and no element is occupied. -/
theorem bulk_append_is_rejected :
    ldyna_start_bulk_add (created_int LDYNA_SORT) false = (LDYNA_SUCCESS, true) ∧
    (ldyna_append (created_int LDYNA_SORT) 5
        (ldyna_start_bulk_add (created_int LDYNA_SORT) false).2 none).1 = LDYNA_INBULK_WARN ∧
    (ldyna_append (created_int LDYNA_SORT) 5
        (ldyna_start_bulk_add (created_int LDYNA_SORT) false).2 none).1 ≠ LDYNA_SUCCESS ∧
    ldyna_len (ldyna_append (created_int LDYNA_SORT) 5
        (ldyna_start_bulk_add (created_int LDYNA_SORT) false).2 none).2 = 0 ∧
    occupied (ldyna_append (created_int LDYNA_SORT) 5
        (ldyna_start_bulk_add (created_int LDYNA_SORT) false).2 none).2 = [] :=
  ⟨rfl, by decide, by decide, by decide, by decide⟩

/-- A failed `realloc`: the call returns `LDYNA_REALLOC_ERR`, the length and the
occupied elements are kept, and the capacity field has already been raised. -/
theorem ldyna_insert_realloc_fail {α : Type} (list : ldyna α) (data : α) (idx : Nat)
    (hfull : list.allocs = list.len) :
    (ldyna_insert list data idx false none).1 = LDYNA_REALLOC_ERR ∧
    (ldyna_insert list data idx false none).2.len = list.len ∧
    occupied (ldyna_insert list data idx false none).2 = occupied list ∧
    (ldyna_insert list data idx false none).2.allocs = size_add list.allocs ldyna_block_size := by
  unfold ldyna_insert
  simp [hfull, occupied]

set_option maxRecDepth 100000 in
/-- C13 - Allocation failure, evaluated where the code breaks the claim.  An
unsorted integer container is filled to its capacity of 61; the next append,
whose `realloc` fails, returns `LDYNA_REALLOC_ERR` and keeps the length and the
elements, but leaves the capacity at 122.  A further append then succeeds
without calling `realloc` and counts a 62nd element for a buffer of 61 slots. -/
theorem realloc_failure_changes_capacity :
    ldyna_len scenario_full = 61 ∧ scenario_full.allocs = 61 ∧
    (ldyna_append scenario_full 9 false none).1 = LDYNA_REALLOC_ERR ∧
    ldyna_len (ldyna_append scenario_full 9 false none).2 = 61 ∧
    occupied (ldyna_append scenario_full 9 false none).2 = occupied scenario_full ∧
    (ldyna_append scenario_full 9 false none).2.allocs = 122 ∧
    (ldyna_append scenario_full 9 false none).2.allocs ≠ scenario_full.allocs ∧
    (ldyna_append (ldyna_append scenario_full 9 false none).2 9 false none).1 = LDYNA_SUCCESS ∧
    ldyna_len (ldyna_append (ldyna_append scenario_full 9 false none).2 9 false none).2 = 62 :=
  ⟨by decide, by decide, by decide, by decide, by decide, by decide, by decide, by decide,
    by decide⟩

/-! ## Claims on the linear scan -/

/-- The scan of `n` slots from slot `i` finds the first slot that compares
equal, and finds none exactly when no slot does. -/
theorem index_of_scan_spec {α : Type} (compare : α → α → Int) (array : Nat → α) (data : α) :
    ∀ (n i : Nat),
      (index_of_scan compare array data n i = none →
        ∀ j, i ≤ j → j < i + n → compare data (array j) ≠ 0) ∧
      (∀ r, index_of_scan compare array data n i = some r →
        i ≤ r ∧ r < i + n ∧ compare data (array r) = 0 ∧
        ∀ j, i ≤ j → j < r → compare data (array j) ≠ 0) := by
  intro n
  induction n with
  | zero =>
    intro i
    refine ⟨fun _ j h1 h2 => by omega, fun r hr => ?_⟩
    simp [index_of_scan] at hr
  | succ n ih =>
    intro i
    unfold index_of_scan
    by_cases hc : compare data (array i) = 0
    · simp only [hc, if_true]
      refine ⟨fun h => by simp at h, fun r hr => ?_⟩
      simp only [Option.some.injEq] at hr
      subst hr
      exact ⟨Nat.le_refl _, by omega, hc, fun j h1 h2 => by omega⟩
    · simp only [hc, if_false]
      obtain ⟨ih1, ih2⟩ := ih (i + 1)
      refine ⟨fun h j h1 h2 => ?_, fun r hr => ?_⟩
      · by_cases hji : j = i
        · rw [hji]; exact hc
        · exact ih1 h j (by omega) (by omega)
      · obtain ⟨a, b, c, d⟩ := ih2 r hr
        refine ⟨by omega, by omega, c, fun j h1 h2 => ?_⟩
        by_cases hji : j = i
        · rw [hji]; exact hc
        · exact d j (by omega) h2

/-- C16 - `index_of` on an unsorted container is a first-match linear scan.
With bulk mode off and an output slot supplied: if some occupied element
compares equal to the key, the call returns success and stores the smallest
index whose element compares equal; if none does, the empty container included,
it returns `LDYNA_NOT_FOUND` and leaves the output slot as it was. -/
theorem index_of_unsorted_first_match {α : Type} (list : ldyna α) (key : α) (slot : Nat)
    (hflag : is_sorted_list list = false) :
    ((∃ i, i < list.len ∧ list.compare key (list.array i) = 0) →
      ∃ j, ldyna_index_of list key (some slot) false = .ok (LDYNA_SUCCESS, some j) ∧
        j < list.len ∧ list.compare key (list.array j) = 0 ∧
        ∀ k, k < j → list.compare key (list.array k) ≠ 0) ∧
    ((∀ i, i < list.len → list.compare key (list.array i) ≠ 0) →
      ldyna_index_of list key (some slot) false = .ok (LDYNA_NOT_FOUND, some slot)) := by
  obtain ⟨h1, h2⟩ := index_of_scan_spec list.compare list.array key list.len 0
  constructor
  · rintro ⟨i, hi, heq⟩
    cases hscan : index_of_scan list.compare list.array key list.len 0 with
    | none => exact absurd heq (h1 hscan i (Nat.zero_le _) (by omega))
    | some r =>
      obtain ⟨_, b, c, d⟩ := h2 r hscan
      refine ⟨r, ?_, by omega, c, fun k hk => d k (Nat.zero_le _) hk⟩
      unfold ldyna_index_of
      simp [hflag, hscan]
  · intro hnone
    cases hscan : index_of_scan list.compare list.array key list.len 0 with
    | none =>
      unfold ldyna_index_of
      simp [hflag, hscan]
    | some r =>
      obtain ⟨_, b, c, _⟩ := h2 r hscan
      exact absurd c (hnone r (by omega))

/-- Witness of C16 on the unsorted container `[2, 1]`: the key 1 is found at
index 1 and the key 5 is not found. -/
theorem index_of_unsorted_first_match_witness :
    is_sorted_list scenario_21 = false ∧
    occupied scenario_21 = [2, 1] ∧
    ldyna_index_of scenario_21 1 (some 99) false = .ok (LDYNA_SUCCESS, some 1) ∧
    ldyna_index_of scenario_21 5 (some 99) false = .ok (LDYNA_NOT_FOUND, some 99) ∧
    ((∃ i, i < scenario_21.len ∧ scenario_21.compare 1 (scenario_21.array i) = 0) →
      ∃ j, ldyna_index_of scenario_21 1 (some 99) false = .ok (LDYNA_SUCCESS, some j) ∧
        j < scenario_21.len ∧ scenario_21.compare 1 (scenario_21.array j) = 0 ∧
        ∀ k, k < j → scenario_21.compare 1 (scenario_21.array k) ≠ 0) ∧
    ((∀ i, i < scenario_21.len → scenario_21.compare 1 (scenario_21.array i) ≠ 0) →
      ldyna_index_of scenario_21 1 (some 99) false = .ok (LDYNA_NOT_FOUND, some 99)) :=
  ⟨by decide, by decide, by decide, by decide,
    index_of_unsorted_first_match scenario_21 1 99 (by decide)⟩

/-! ## Claims on the resolver without a candidate -/

/-- Insertion mode, when the search ends at `right = 0`: the candidate index
wraps to `SIZE_MAX`, and the function stores 0 if the key compares greater than
the slot in front of the buffer and `SIZE_MAX` otherwise. -/
theorem bsearch_insert_no_candidate {α : Type} (compare : α → α → Int) (base : Nat → α)
    (key : α) (n : Nat) (h0 : (bsearch_loop compare base key n 0 n).2 = 0) :
    __bsearch_index_insert base n key true compare
      = some (if compare key (base SIZE_MAX) > 0 then 0 else SIZE_MAX) := by
  have hsub : size_sub 0 1 = SIZE_MAX := by decide
  have hadd : size_add SIZE_MAX 1 = 0 := by decide
  unfold __bsearch_index_insert
  simp only [h0, hsub, if_true]
  by_cases hpos : compare key (base SIZE_MAX) > 0
  · simp only [hpos, if_true, hadd]
    rw [stable_loop_exit _ _ _ _ _ _ _ (by omega)]
  · simp only [hpos, if_false]
    rw [stable_loop_exit _ _ _ _ _ _ _ (by omega)]

/-- C18 - The insertion point without a candidate, evaluated where the code
breaks the claim.  For the empty buffer and the key 0 the resolver in insertion
mode stores `SIZE_MAX` when the slot in front of the buffer reads 0 and stores 0
when that slot reads -5: the answer follows memory outside the occupied range.
For the sorted container `[1, 2, 3]` and the key 0, smaller than every element,
it stores `SIZE_MAX` as well, and the append lands at the end. -/
theorem no_candidate_insertion_point_follows_memory :
    __bsearch_index_insert zero_heap 0 0 true compare_int = some SIZE_MAX ∧
    __bsearch_index_insert minus_heap 0 0 true compare_int = some 0 ∧
    occupied scenario_123 = [1, 2, 3] ∧
    __bsearch_index_insert scenario_123.array scenario_123.len 0 true scenario_123.compare
      = some SIZE_MAX ∧
    __bsearch_index_insert scenario_123.array scenario_123.len 0 true scenario_123.compare
      ≠ some 0 ∧
    occupied (ldyna_append scenario_123 0 false none).2 = [1, 2, 3, 0] :=
  ⟨by decide, by decide, by decide, by decide, by decide, by decide⟩

/-- The probes of the search loop stay below `right`: with no wrap in
`left + right`, every index the loop reads lies in the window it was given. -/
theorem bsearch_loop_reads_lt {α : Type} (compare : α → α → Int) (base : Nat → α) (key : α) :
    ∀ (fuel left right : Nat), right ≤ PTRDIFF_MAX →
      ∀ i ∈ bsearch_loop_reads compare base key fuel left right, left ≤ i ∧ i < right := by
  intro fuel
  induction fuel with
  | zero =>
    intro left right _ i hi
    simp [bsearch_loop_reads] at hi
  | succ fuel ih =>
    intro left right hmax i hi
    unfold bsearch_loop_reads at hi
    by_cases hlt : left < right
    · have hsum : size_add left right = left + right := by
        apply size_add_eq
        have := ptrdiff_lt_size
        omega
      simp only [hlt, if_true, hsum, List.mem_cons] at hi
      rcases hi with hi | hi
      · omega
      · by_cases hc : compare key (base ((left + right) / 2)) < 0
        · simp only [hc, if_true] at hi
          have := ih left ((left + right) / 2) (by omega) i hi
          omega
        · simp only [hc, if_false] at hi
          have := ih ((left + right) / 2 + 1) right hmax i hi
          omega
    · simp [hlt] at hi

/-- C19 - The slots the resolver reads, evaluated where the code breaks the
claim.  On the empty buffer both modes evaluate the comparator once, at index
`SIZE_MAX`.  On the sorted container `[1, 2, 3]` (three occupied slots) the
insertion of the key 3 evaluates it at the indices 1, 2, 2 and 3: the last one,
read by the stable-insertion loop after its increment, is the first slot past
the occupied ones. -/
theorem resolver_reads_outside_occupied :
    bsearch_index_insert_reads zero_heap 0 0 true compare_int = [SIZE_MAX] ∧
    bsearch_index_insert_reads zero_heap 0 0 false compare_int = [SIZE_MAX] ∧
    scenario_123.len = 3 ∧
    bsearch_index_insert_reads scenario_123.array scenario_123.len 3 true scenario_123.compare
      = [1, 2, 2, 3] ∧
    ¬ (∀ i ∈ bsearch_index_insert_reads zero_heap 0 0 true compare_int, i < 0) ∧
    ¬ (∀ i ∈ bsearch_index_insert_reads scenario_123.array scenario_123.len 3 true
        scenario_123.compare, i < scenario_123.len) :=
  ⟨by decide, by decide, by decide, by decide, by decide, by decide⟩

/-! ## Claims on sorting -/

theorem qsort_model_spec {α : Type} : QsortSpec (qsort_model : (α → α → Int) → List α → List α) := by
  intro compare l hpre
  unfold qsort_model NonDescending
  refine ⟨List.perm_insertionSort _ l, ?_⟩
  haveI : IsTotal α (fun a b => compare a b ≤ 0) := ⟨fun a b => by
    have := hpre.1 a b
    by_cases h : compare a b ≤ 0
    · exact Or.inl h
    · exact Or.inr (by omega)⟩
  haveI : IsTrans α (fun a b => compare a b ≤ 0) := ⟨fun a b c => hpre.2 a b c⟩
  exact List.sorted_insertionSort (fun a b => compare a b ≤ 0) l

/-- Writing a list of `len` elements back to the slots `0 .. len - 1` makes it
the occupied sequence. -/
theorem occupied_write_back {α : Type} (list : ldyna α) (l : List α) (h : l.length = list.len) :
    occupied { list with array := fun i => l.getD i (list.array i) } = l := by
  apply List.ext_getElem?
  intro i
  rw [occupied_getElem?]
  by_cases hi : i < list.len
  · have hi1 : i < l.length := by omega
    simp only [hi, if_true]
    rw [List.getD_eq_getElem l _ hi1, List.getElem?_eq_getElem hi1]
  · have hi1 : l.length ≤ i := by omega
    simp only [hi, if_false]
    exact (List.getElem?_eq_none hi1).symm

/-- A sort with a comparator at hand, one that is a total preorder: the call
succeeds and the occupied elements become the result of `qsort`. -/
theorem ldyna_sort_some {α : Type} (qsort : (α → α → Int) → List α → List α)
    (hq : QsortSpec qsort) (list : ldyna α) (compare : α → α → Int)
    (hpre : IsTotalPreorder compare) :
    ∃ list1, ldyna_sort qsort list (some compare) = .ok (LDYNA_SUCCESS, list1) ∧
      occupied list1 = qsort compare (occupied list) ∧
      list1.len = list.len ∧ list1.allocs = list.allocs ∧ list1.flags = list.flags ∧
      (is_sorted_list list = true → list1.compare = compare) ∧
      (is_sorted_list list = false → list1.compare = list.compare) := by
  have hlen : (qsort compare (occupied list)).length = list.len := by
    rw [(hq compare (occupied list) hpre).1.length_eq, occupied_length]
  unfold ldyna_sort
  by_cases hflag : is_sorted_list list = true
  · simp only [hflag, if_true]
    refine ⟨_, rfl, ?_, rfl, rfl, rfl, fun _ => rfl, fun h => by simp at h⟩
    exact occupied_write_back { list with compare := compare } _ hlen
  · have hflag1 : is_sorted_list list = false := by simpa using hflag
    simp only [hflag1, Bool.false_eq_true, if_false]
    refine ⟨_, rfl, ?_, rfl, rfl, rfl, fun h => by simp at h, fun _ => rfl⟩
    exact occupied_write_back list _ hlen

/-- C15 - `sort` with a supplied comparator.  On every container, sorted or
not, and for every supplied comparator that is a total preorder, `sort` returns
success; afterwards the occupied elements are non-descending per that comparator
and a permutation of the elements held before, and the length and the capacity
are unchanged.  On a sorted container the supplied comparator becomes the
comparator of the container. -/
theorem sort_with_comparator {α : Type} (qsort : (α → α → Int) → List α → List α)
    (list : ldyna α) (compare : α → α → Int)
    (hq : QsortSpec qsort) (hpre : IsTotalPreorder compare) :
    ∃ list1, ldyna_sort qsort list (some compare) = .ok (LDYNA_SUCCESS, list1) ∧
      NonDescending compare (occupied list1) ∧
      (occupied list1).Perm (occupied list) ∧
      ldyna_len list1 = ldyna_len list ∧ list1.allocs = list.allocs ∧
      (is_sorted_list list = true → list1.compare = compare) := by
  obtain ⟨list1, h1, h2, h3, h4, _, h6, _⟩ := ldyna_sort_some qsort hq list compare hpre
  obtain ⟨q1, q2⟩ := hq compare (occupied list) hpre
  refine ⟨list1, h1, ?_, ?_, h3, h4, h6⟩
  · rw [h2]; exact q2
  · rw [h2]; exact q1

/-- Witness of C15: the unsorted container `[2, 1]` sorted with `compare_int`
becomes `[1, 2]`. -/
theorem sort_with_comparator_witness :
    QsortSpec (qsort_model : (Int → Int → Int) → List Int → List Int) ∧
    IsTotalPreorder compare_int ∧
    occupied scenario_21 = [2, 1] ∧
    ∃ list1, ldyna_sort qsort_model scenario_21 (some compare_int) = .ok (LDYNA_SUCCESS, list1) ∧
      NonDescending compare_int (occupied list1) ∧
      (occupied list1).Perm (occupied scenario_21) ∧
      ldyna_len list1 = ldyna_len scenario_21 ∧ list1.allocs = scenario_21.allocs ∧
      (is_sorted_list scenario_21 = true → list1.compare = compare_int) :=
  ⟨qsort_model_spec, compare_int_total_preorder, by decide,
    sort_with_comparator qsort_model scenario_21 compare_int qsort_model_spec
      compare_int_total_preorder⟩

/-- On a sorted container, `sort` without a comparator sorts with the
comparator of the container. -/
theorem ldyna_sort_default_sorted {α : Type} (qsort : (α → α → Int) → List α → List α)
    (hq : QsortSpec qsort) (list : ldyna α) (hflag : is_sorted_list list = true)
    (hpre : IsTotalPreorder list.compare) :
    ∃ list1, ldyna_sort qsort list none = .ok (LDYNA_SUCCESS, list1) ∧
      occupied list1 = qsort list.compare (occupied list) ∧
      NonDescending list.compare (occupied list1) ∧ list1.compare = list.compare := by
  have hlen : (qsort list.compare (occupied list)).length = list.len := by
    rw [(hq list.compare (occupied list) hpre).1.length_eq, occupied_length]
  unfold ldyna_sort
  simp only [hflag, if_true]
  refine ⟨_, rfl, occupied_write_back list _ hlen, ?_, rfl⟩
  rw [occupied_write_back list _ hlen]
  exact (hq list.compare (occupied list) hpre).2

/-- C20 - `sort` without a comparator, evaluated where the code breaks the
claim.  On the unsorted integer container `[2, 1]`, `ldyna_sort(list, NULL)`
and `ldyna_end_bulk_add`, which calls it, do not return: the null comparator
is handed to `qsort` as it is, whatever `qsort` does with a valid one. -/
theorem sort_without_comparator_unsorted_faults :
    is_sorted_list scenario_21 = false ∧
    occupied scenario_21 = [2, 1] ∧
    IsTotalPreorder scenario_21.compare ∧
    (∀ qsort : (Int → Int → Int) → List Int → List Int,
      ldyna_sort qsort scenario_21 none = .segfault) ∧
    (∀ qsort : (Int → Int → Int) → List Int → List Int,
      (ldyna_end_bulk_add qsort scenario_21 true).1 = .segfault) :=
  ⟨by decide, by decide, compare_int_total_preorder, fun _ => rfl, fun _ => rfl⟩

/-! ## Claims on copying -/

/-- C14 - `copy` reproduces the source and is independent of it.  With bulk
mode off and allocation succeeding, that is `malloc` handing out the address
`p` of a buffer distinct from the live buffer of the source, `copy` returns a
container with the same length, the same occupied elements in the same order,
the same capacity, element width, comparator and flags, and leaves the source
as it was.  Any later operation performed through one of the two leaves the
length and the occupied elements of the other unchanged. -/
theorem copy_reproduces_and_is_independent {α : Type} (mem : Memory α)
    (list : ldyna_struct α) (p : Nat) (hfresh : p ≠ list.array) :
    ∃ copy, (ldyna_copy mem list false (some p)).2 = some copy ∧
      copy.array = p ∧
      ldyna_len (deref (ldyna_copy mem list false (some p)).1 copy)
        = ldyna_len (deref mem list) ∧
      occupied (deref (ldyna_copy mem list false (some p)).1 copy)
        = occupied (deref mem list) ∧
      copy.allocs = list.allocs ∧ copy.esize = list.esize ∧
      copy.compare = list.compare ∧ copy.flags = list.flags ∧
      deref (ldyna_copy mem list false (some p)).1 list = deref mem list ∧
      (∀ (op : ldyna α → ldyna α) (dest : Nat), dest ≠ copy.array →
        deref (perform (ldyna_copy mem list false (some p)).1 list op dest).1 copy
          = deref (ldyna_copy mem list false (some p)).1 copy) ∧
      (∀ (op : ldyna α → ldyna α) (dest : Nat), dest ≠ list.array →
        deref (perform (ldyna_copy mem list false (some p)).1 copy op dest).1 list
          = deref (ldyna_copy mem list false (some p)).1 list) := by
  have hne : ¬ (list.array = p) := fun h => hfresh h.symm
  refine ⟨{ list with array := p }, ?_, rfl, ?_, ?_, rfl, rfl, rfl, rfl, ?_, ?_, ?_⟩
  · simp [ldyna_copy]
  · simp [ldyna_copy, deref, ldyna_len]
  · unfold occupied
    apply List.map_congr_left
    intro i hi
    have hi1 : i < list.len := by simpa [deref] using List.mem_range.1 hi
    simp [ldyna_copy, deref, hi1]
  · simp [ldyna_copy, deref, hne]
  · intro op dest hdest
    have hd : ¬ (p = dest) := fun h => hdest h.symm
    simp [perform, deref, hd]
  · intro op dest hdest
    have hd : ¬ (list.array = dest) := fun h => hdest h.symm
    simp [perform, deref, hd]

/-- Witness of C14: the unsorted container `[2, 1]` at address 0 is copied to
address 1; sorting the copy leaves the original `[2, 1]`, and removing index 0
from the original leaves the copy `[2, 1]`. -/
theorem copy_reproduces_and_is_independent_witness :
    (1 : Nat) ≠ struct_21.array ∧
    occupied (deref memory_21 struct_21) = [2, 1] ∧
    occupied (deref (ldyna_copy memory_21 struct_21 false (some 1)).1
      { struct_21 with array := 1 }) = [2, 1] ∧
    occupied (deref (perform (ldyna_copy memory_21 struct_21 false (some 1)).1
        { struct_21 with array := 1 } (effect qsort_model (.sort (some compare_int))) 1).1
      { struct_21 with array := 1 }) = [1, 2] ∧
    occupied (deref (perform (ldyna_copy memory_21 struct_21 false (some 1)).1
        { struct_21 with array := 1 } (effect qsort_model (.sort (some compare_int))) 1).1
      struct_21) = [2, 1] ∧
    occupied (deref (perform (ldyna_copy memory_21 struct_21 false (some 1)).1
        struct_21 (effect qsort_model (.remove 0)) 0).1
      { struct_21 with array := 1 }) = [2, 1] ∧
    ∃ copy, (ldyna_copy memory_21 struct_21 false (some 1)).2 = some copy ∧
      copy.array = 1 ∧
      ldyna_len (deref (ldyna_copy memory_21 struct_21 false (some 1)).1 copy)
        = ldyna_len (deref memory_21 struct_21) ∧
      occupied (deref (ldyna_copy memory_21 struct_21 false (some 1)).1 copy)
        = occupied (deref memory_21 struct_21) ∧
      copy.allocs = struct_21.allocs ∧ copy.esize = struct_21.esize ∧
      copy.compare = struct_21.compare ∧ copy.flags = struct_21.flags ∧
      deref (ldyna_copy memory_21 struct_21 false (some 1)).1 struct_21
        = deref memory_21 struct_21 ∧
      (∀ (op : ldyna Int → ldyna Int) (dest : Nat), dest ≠ copy.array →
        deref (perform (ldyna_copy memory_21 struct_21 false (some 1)).1 struct_21 op dest).1
            copy
          = deref (ldyna_copy memory_21 struct_21 false (some 1)).1 copy) ∧
      (∀ (op : ldyna Int → ldyna Int) (dest : Nat), dest ≠ struct_21.array →
        deref (perform (ldyna_copy memory_21 struct_21 false (some 1)).1 copy op dest).1
            struct_21
          = deref (ldyna_copy memory_21 struct_21 false (some 1)).1 struct_21) :=
  ⟨by decide, by decide, by decide, by decide, by decide, by decide,
    copy_reproduces_and_is_independent memory_21 struct_21 1 (by decide)⟩

/-! ## Claims on the capacity -/

theorem insert_place_fields {α : Type} (list : ldyna α) (data : α) (idx : Nat) :
    (insert_place list data idx).len = size_add list.len 1 ∧
    (insert_place list data idx).allocs = list.allocs :=
  ⟨rfl, rfl⟩

theorem list_remove_fields {α : Type} (list : ldyna α) (idx : Nat) :
    (__list_remove list idx).len = size_sub list.len 1 ∧
    (__list_remove list idx).allocs = list.allocs := by
  by_cases h : idx = size_sub list.len 1 <;> simp [__list_remove, h]

theorem ldyna_sort_fields {α : Type} (qsort : (α → α → Int) → List α → List α)
    (list : ldyna α) (compare : Option (α → α → Int)) (code : Nat) (list1 : ldyna α)
    (h : ldyna_sort qsort list compare = .ok (code, list1)) :
    list1.len = list.len ∧ list1.allocs = list.allocs := by
  unfold ldyna_sort at h
  by_cases hflag : is_sorted_list list = true
  · cases compare with
    | none =>
      simp only [hflag, if_true, Result.ok.injEq, Prod.mk.injEq] at h
      rw [← h.2]; exact ⟨rfl, rfl⟩
    | some c =>
      simp only [hflag, if_true, Result.ok.injEq, Prod.mk.injEq] at h
      rw [← h.2]; exact ⟨rfl, rfl⟩
  · have hflag1 : is_sorted_list list = false := by simpa using hflag
    cases compare with
    | none =>
      simp only [hflag1, Bool.false_eq_true, if_false] at h
      by_cases hlen : list.len < 2
      · simp only [hlen, if_true, Result.ok.injEq, Prod.mk.injEq] at h
        rw [← h.2]; exact ⟨rfl, rfl⟩
      · simp [hlen] at h
    | some c =>
      simp only [hflag1, Bool.false_eq_true, if_false, Result.ok.injEq, Prod.mk.injEq] at h
      rw [← h.2]; exact ⟨rfl, rfl⟩

/-- The counters after an insertion: the capacity stays, or grows by one
increment when the call finds the container full with bulk mode off. -/
theorem ldyna_insert_capacity {α : Type} (list : ldyna α) (data : α) (idx : Nat)
    (inbulk : Bool) (realloc : Option (Nat → α))
    (hinv : CapacityInv list) (hroom : list.allocs + ldyna_block_size < SIZE_MOD) :
    CapacityInv (ldyna_insert list data idx inbulk realloc).2 ∧
    ((ldyna_insert list data idx inbulk realloc).2.allocs = list.allocs ∨
      ((ldyna_insert list data idx inbulk realloc).2.allocs = list.allocs + ldyna_block_size ∧
        list.len = list.allocs ∧ inbulk = false)) := by
  obtain ⟨h1, h2, h3⟩ := hinv
  have hblock : ldyna_block_size = 61 := rfl
  have hgrow : size_add list.allocs ldyna_block_size = list.allocs + ldyna_block_size :=
    size_add_eq hroom
  have hone : size_add list.len 1 = list.len + 1 := size_add_eq (by omega)
  unfold ldyna_insert
  cases inbulk with
  | true => exact ⟨⟨h1, h2, h3⟩, Or.inl rfl⟩
  | false =>
    by_cases hfull : list.allocs = list.len
    · cases realloc with
      | none =>
        simp only [Bool.false_eq_true, if_false, if_pos hfull]
        refine ⟨⟨?_, ?_, ?_⟩, Or.inr ⟨?_, hfull.symm, trivial⟩⟩
        · show list.len ≤ size_add list.allocs ldyna_block_size
          omega
        · show 0 < size_add list.allocs ldyna_block_size
          omega
        · show ldyna_block_size ∣ size_add list.allocs ldyna_block_size
          rw [hgrow]
          exact Dvd.dvd.add h3 (dvd_refl _)
        · show size_add list.allocs ldyna_block_size = list.allocs + ldyna_block_size
          omega
      | some heap =>
        simp only [Bool.false_eq_true, if_false, if_pos hfull]
        refine ⟨⟨?_, ?_, ?_⟩, Or.inr ⟨?_, hfull.symm, trivial⟩⟩
        · show size_add list.len 1 ≤ size_add list.allocs ldyna_block_size
          omega
        · show 0 < size_add list.allocs ldyna_block_size
          omega
        · show ldyna_block_size ∣ size_add list.allocs ldyna_block_size
          rw [hgrow]
          exact Dvd.dvd.add h3 (dvd_refl _)
        · show size_add list.allocs ldyna_block_size = list.allocs + ldyna_block_size
          omega
    · simp only [Bool.false_eq_true, if_false, if_neg hfull]
      refine ⟨⟨?_, h2, h3⟩, Or.inl rfl⟩
      show size_add list.len 1 ≤ list.allocs
      omega

/-- One call that returns keeps the capacity invariant; the capacity stays, or
grows by one increment when the call is an insertion or an append with bulk
mode off that finds the length equal to the capacity. -/
theorem step_capacity {α : Type} (qsort : (α → α → Int) → List α → List α)
    (list next : ldyna α) (op : Op α)
    (hinv : CapacityInv list) (hroom : list.allocs + ldyna_block_size < SIZE_MOD)
    (hstep : step qsort list op = .ok next) :
    CapacityInv next ∧
    (next.allocs = list.allocs ∨
      (next.allocs = list.allocs + ldyna_block_size ∧ list.len = list.allocs ∧
        ((∃ data idx realloc, op = .insert data idx false realloc) ∨
          (∃ data realloc, op = .append data false realloc)))) := by
  cases op with
  | insert data idx inbulk realloc =>
    simp only [step, Result.ok.injEq] at hstep
    obtain ⟨c1, c2⟩ := ldyna_insert_capacity list data idx inbulk realloc hinv hroom
    rw [hstep] at c1 c2
    refine ⟨c1, ?_⟩
    rcases c2 with c2 | ⟨c2, c3, c4⟩
    · exact Or.inl c2
    · exact Or.inr ⟨c2, c3, Or.inl ⟨data, idx, realloc, by rw [c4]⟩⟩
  | append data inbulk realloc =>
    simp only [step, Result.ok.injEq, ldyna_append] at hstep
    obtain ⟨c1, c2⟩ := ldyna_insert_capacity list data list.len inbulk realloc hinv hroom
    rw [hstep] at c1 c2
    refine ⟨c1, ?_⟩
    rcases c2 with c2 | ⟨c2, c3, c4⟩
    · exact Or.inl c2
    · exact Or.inr ⟨c2, c3, Or.inr ⟨data, realloc, by rw [c4]⟩⟩
  | remove idx =>
    obtain ⟨h1, h2, h3⟩ := hinv
    unfold step ldyna_remove at hstep
    by_cases hlen : list.len = 0
    · simp [hlen] at hstep
    · simp only [hlen, if_false, Result.ok.injEq] at hstep
      obtain ⟨f1, f2⟩ := list_remove_fields list (if idx ≥ list.len then list.len - 1 else idx)
      rw [hstep] at f1 f2
      have hsub : size_sub list.len 1 = list.len - 1 :=
        size_sub_one_eq (by omega) (by unfold SIZE_MAX; omega)
      refine ⟨⟨by omega, by omega, by rw [f2]; exact h3⟩, Or.inl f2⟩
  | get idx =>
    unfold step at hstep
    cases hget : ldyna_get list idx with
    | abort => simp [hget] at hstep
    | segfault => simp [hget] at hstep
    | ok v =>
      simp only [hget, Result.ok.injEq] at hstep
      rw [← hstep]
      exact ⟨hinv, Or.inl rfl⟩
  | sort compare =>
    obtain ⟨h1, h2, h3⟩ := hinv
    unfold step at hstep
    cases hsort : ldyna_sort qsort list compare with
    | abort => simp [hsort] at hstep
    | segfault => simp [hsort] at hstep
    | ok v =>
      obtain ⟨code, list1⟩ := v
      simp only [hsort, Result.ok.injEq] at hstep
      obtain ⟨f1, f2⟩ := ldyna_sort_fields qsort list compare code list1 hsort
      rw [hstep] at f1 f2
      exact ⟨⟨by omega, by omega, by rw [f2]; exact h3⟩, Or.inl f2⟩

/-- A sequence of calls that all return keeps the capacity invariant, never
lowers the capacity and raises it by at most one increment per call. -/
theorem run_ops_capacity {α : Type} (qsort : (α → α → Int) → List α → List α)
    (ops : List (Op α)) :
    ∀ (list last : ldyna α), CapacityInv list →
      list.allocs + ldyna_block_size * ops.length < SIZE_MOD →
      run_ops qsort list ops = .ok last →
      CapacityInv last ∧ list.allocs ≤ last.allocs ∧
      last.allocs ≤ list.allocs + ldyna_block_size * ops.length := by
  induction ops with
  | nil =>
    intro list last hinv _ hrun
    simp only [run_ops, Result.ok.injEq] at hrun
    subst hrun
    exact ⟨hinv, Nat.le_refl _, by omega⟩
  | cons op rest ih =>
    intro list last hinv hroom hrun
    have hblock : ldyna_block_size = 61 := rfl
    simp only [List.length_cons] at hroom
    have hroom1 : list.allocs + ldyna_block_size + ldyna_block_size * rest.length < SIZE_MOD := by
      have : ldyna_block_size * (rest.length + 1)
          = ldyna_block_size + ldyna_block_size * rest.length := by ring
      omega
    unfold run_ops at hrun
    cases hstep : step qsort list op with
    | abort => simp [hstep] at hrun
    | segfault => simp [hstep] at hrun
    | ok next =>
      simp only [hstep] at hrun
      obtain ⟨s1, s2⟩ := step_capacity qsort list next op hinv (by omega) hstep
      have hnext : next.allocs ≤ list.allocs + ldyna_block_size := by
        rcases s2 with s2 | ⟨s2, _, _⟩ <;> omega
      have hnext1 : list.allocs ≤ next.allocs := by
        rcases s2 with s2 | ⟨s2, _, _⟩ <;> omega
      obtain ⟨i1, i2, i3⟩ := ih next last s1 (by omega) hrun
      have hmul : ldyna_block_size * (rest.length + 1)
          = ldyna_block_size + ldyna_block_size * rest.length := by ring
      exact ⟨i1, by omega, by simp only [List.length_cons]; omega⟩

/-- The invariant of the capacity field.  A newly created container has length
0 and `allocs` equal to one growth increment, 61.  After every sequence of
insert, append, remove, get and sort calls that return, the length is at most
`allocs`, `allocs` is a positive multiple of 61 and is not below the initial
one; and one more call leaves `allocs` as it is or raises it by exactly 61, the
latter only for an insert or append with bulk mode off that finds the length
equal to `allocs`.  This is a statement on the field, which a failed `realloc`
raises without a buffer to match. -/
theorem capacity_invariant {α : Type} (qsort : (α → α → Int) → List α → List α)
    (esize : Nat) (compare : α → α → Int) (flags : Nat) (heap : Nat → α)
    (list0 last : ldyna α) (ops : List (Op α))
    (hcreate : ldyna_create esize compare flags heap = .ok list0)
    (hbound : ldyna_block_size * (ops.length + 2) < SIZE_MOD)
    (hrun : run_ops qsort list0 ops = .ok last) :
    ldyna_len list0 = 0 ∧ list0.allocs = ldyna_block_size ∧
    ldyna_len last ≤ last.allocs ∧ 0 < last.allocs ∧ ldyna_block_size ∣ last.allocs ∧
    list0.allocs ≤ last.allocs ∧
    ∀ (op : Op α) (next : ldyna α), step qsort last op = .ok next →
      ldyna_len next ≤ next.allocs ∧ ldyna_block_size ∣ next.allocs ∧
      (next.allocs = last.allocs ∨
        (next.allocs = last.allocs + ldyna_block_size ∧ ldyna_len last = last.allocs ∧
          ((∃ data idx realloc, op = .insert data idx false realloc) ∨
            (∃ data realloc, op = .append data false realloc)))) := by
  have hblock : ldyna_block_size = 61 := rfl
  unfold ldyna_create at hcreate
  by_cases hesize : esize = 0
  · simp [hesize] at hcreate
  · simp only [hesize, if_false, Result.ok.injEq] at hcreate
    have hlen0 : list0.len = 0 := by rw [← hcreate]
    have hall0 : list0.allocs = ldyna_block_size := by rw [← hcreate]
    have hinv0 : CapacityInv list0 := ⟨by omega, by omega, by rw [hall0]⟩
    have hmul : ldyna_block_size * (ops.length + 2)
        = ldyna_block_size + ldyna_block_size * ops.length + ldyna_block_size := by ring
    obtain ⟨⟨r1, r2, r3⟩, r4, r5⟩ := run_ops_capacity qsort ops list0 last hinv0
      (by rw [hall0]; omega) hrun
    refine ⟨hlen0, hall0, r1, r2, r3, r4, ?_⟩
    intro op next hstep
    obtain ⟨⟨s1, _, s3⟩, s4⟩ := step_capacity qsort last next op ⟨r1, r2, r3⟩
      (by omega) hstep
    exact ⟨s1, s3, s4⟩

/-- The invariant of the capacity field on the calls of `scenario_calls`, run on
a fresh unsorted integer container: they all return and leave one element and
`allocs` at 61. -/
theorem capacity_invariant_witness :
    ldyna_create 4 compare_int LDYNA_NONE zero_heap = .ok (created_int LDYNA_NONE) ∧
    ldyna_block_size * (scenario_calls.length + 2) < SIZE_MOD ∧
    run_ops qsort_model (created_int LDYNA_NONE) scenario_calls = .ok scenario_calls_last ∧
    occupied scenario_calls_last = [5] ∧ scenario_calls_last.allocs = 61 ∧
    ldyna_len (created_int LDYNA_NONE) = 0 ∧
    (created_int LDYNA_NONE).allocs = ldyna_block_size ∧
    ldyna_len scenario_calls_last ≤ scenario_calls_last.allocs ∧
    0 < scenario_calls_last.allocs ∧ ldyna_block_size ∣ scenario_calls_last.allocs ∧
    (created_int LDYNA_NONE).allocs ≤ scenario_calls_last.allocs ∧
    ∀ (op : Op Int) (next : ldyna Int), step qsort_model scenario_calls_last op = .ok next →
      ldyna_len next ≤ next.allocs ∧ ldyna_block_size ∣ next.allocs ∧
      (next.allocs = scenario_calls_last.allocs ∨
        (next.allocs = scenario_calls_last.allocs + ldyna_block_size ∧
          ldyna_len scenario_calls_last = scenario_calls_last.allocs ∧
          ((∃ data idx realloc, op = .insert data idx false realloc) ∨
            (∃ data realloc, op = .append data false realloc)))) :=
  ⟨rfl, by decide, rfl, by decide, by decide,
    capacity_invariant qsort_model 4 compare_int LDYNA_NONE zero_heap
      (created_int LDYNA_NONE) scenario_calls_last scenario_calls rfl (by decide) rfl⟩

/-! ## Claims on the optional output index -/

/-- On an unsorted container, `index_of` called without an output slot returns
`LDYNA_NOT_FOUND` whatever the scan finds: the branch that returns success is
guarded by `found && idx`. -/
theorem index_of_unsorted_null_idx {α : Type} (list : ldyna α) (key : α)
    (hflag : is_sorted_list list = false) :
    ldyna_index_of list key none false = .ok (LDYNA_NOT_FOUND, none) := by
  unfold ldyna_index_of
  cases hscan : index_of_scan list.compare list.array key list.len 0 <;> simp [hflag, hscan]

/-- C21 - `index_of` without an output index, evaluated where the code breaks
the claim.  The unsorted integer container `[2, 1]` holds the key 1 at index 1:
with an output slot the call returns `LDYNA_SUCCESS` and stores 1, but with a
null `idx` the same call returns `LDYNA_NOT_FOUND`, although the scan has found
the element. -/
theorem index_of_null_idx_reports_not_found :
    is_sorted_list scenario_21 = false ∧
    occupied scenario_21 = [2, 1] ∧
    scenario_21.compare 1 (scenario_21.array 1) = 0 ∧
    index_of_scan scenario_21.compare scenario_21.array 1 scenario_21.len 0 = some 1 ∧
    ldyna_index_of scenario_21 1 (some 99) false = .ok (LDYNA_SUCCESS, some 1) ∧
    ldyna_index_of scenario_21 1 none false = .ok (LDYNA_NOT_FOUND, none) ∧
    ldyna_index_of scenario_21 1 none false ≠ .ok (LDYNA_SUCCESS, none) :=
  ⟨by decide, by decide, by decide, by decide, by decide, by decide, by decide⟩

/-! ## Claims on the capacity, the allocated slots counted -/

set_option maxRecDepth 100000 in
/-- C17 - The capacity invariant, evaluated where the code breaks it.  A fresh
unsorted integer container has length 0 and 61 slots.  After 61 appends it
holds 61 elements in those 61 slots.  The next append, whose `realloc` fails,
returns `LDYNA_REALLOC_ERR`, leaves the buffer at 61 slots and the field
`allocs` at 122.  One more append then succeeds without calling `realloc`: the
length is 62 while the buffer still has 61 slots, so the length exceeds the
number of slots allocated. -/
theorem length_exceeds_allocated_slots :
    ldyna_create 4 compare_int LDYNA_NONE zero_heap = .ok (created_int LDYNA_NONE) ∧
    ldyna_len (created_int LDYNA_NONE) = 0 ∧
    (created_int LDYNA_NONE).allocs = ldyna_block_size ∧
    slots_after_append_all (created_int LDYNA_NONE) ldyna_block_size
      (List.replicate 61 (7, zero_heap)) = 61 ∧
    ldyna_len scenario_full = 61 ∧
    (ldyna_append scenario_full 9 false none).1 = LDYNA_REALLOC_ERR ∧
    slots_after_insert scenario_full 61 false none = 61 ∧
    (ldyna_append scenario_full 9 false none).2.allocs = 122 ∧
    (ldyna_append (ldyna_append scenario_full 9 false none).2 9 false none).1 = LDYNA_SUCCESS ∧
    slots_after_insert (ldyna_append scenario_full 9 false none).2 61 false none = 61 ∧
    ldyna_len (ldyna_append (ldyna_append scenario_full 9 false none).2 9 false none).2 = 62 ∧
    ¬ (ldyna_len (ldyna_append (ldyna_append scenario_full 9 false none).2 9 false none).2
        ≤ slots_after_insert (ldyna_append scenario_full 9 false none).2 61 false none) :=
  ⟨rfl, rfl, rfl, by decide, by decide, by decide, by decide, by decide, by decide, by decide,
    by decide, by decide⟩

/-! ## The test comparator on the machine -/

/-- On keys whose difference fits a 32-bit `int`, `compare_int` is what the
machine computes. -/
theorem compare_int_wrapped_eq (key1 key2 : Int)
    (h1 : -2147483648 ≤ key1 - key2) (h2 : key1 - key2 < 2147483648) :
    compare_int_wrapped key1 key2 = compare_int key1 key2 := by
  unfold compare_int_wrapped compare_int
  norm_num
  omega

end LDynArray
